import Mathlib

/-!
A verification development for the span-tree reconstruction and query engine
of `pydantic_evals` (files `otel/span_tree.py` and
`context_in_memory_span_exporter.py`).

The Python code is shallowly embedded: the mutable `SpanNode`/`SpanTree`
object graph becomes explicit state passed through pure functions; Python
`dict`s (which preserve insertion order and overwrite values in place)
become association lists with the same update discipline; Python's stable
`list.sort` becomes stable `List.mergeSort`; nanosecond timestamps are
`Nat`; code that can raise (`assert span.context is not None`, the sort's
`TypeError`) returns `Option`.

The sort of `_rebuild_tree` uses the key
`node.start_timestamp or datetime.min`, where `start_timestamp` is
`datetime.fromtimestamp(start_time / 1e9, tz=timezone.utc)`.  Two facts
about that key matter and are modelled faithfully by the `py`-prefixed
definitions (`usOfNs`, `pySortNodes`, `rebuildTreePy`, `SpanTree.buildPy`):

* `datetime` has microsecond resolution, so the key is the *microsecond*
  rounding of the nanosecond timestamp (`usOfNs`), not the nanosecond
  value: distinct nanoseconds in the same microsecond compare equal and
  the stable sort keeps their input order;
* `datetime.min` is timezone-naive while the timestamps are aware, and
  Python raises `TypeError` when ordering a naive against an aware
  datetime, so the sort raises on every list that mixes absent and
  present `start_time` (a comparison sort of a list containing both
  classes must compare some naive key against some aware key).

The development also keeps an *idealized* total builder (`keyLE`,
`rebuildTree`, `SpanTree.build`) that orders the exact nanosecond keys
with `none` minimal.  It is used only for the claims whose truth does not
depend on the tie order of equal keys or on the raising inputs
(duplicate collapse, root promotion, parentage exclusivity, rendering);
the order- and totality-sensitive claims are settled against the
faithful `buildPy` path.
-/

namespace PydanticEvals

/-- OTel attribute values: scalar strings, integers and booleans.
(The float case of `AttributeValue` is not modelled; no claim involves it.) -/
inductive AttrValue where
  | str (s : String)
  | int (n : Int)
  | bool (b : Bool)
  deriving DecidableEq

/-- `opentelemetry.trace.SpanContext`: the identity pair of a span. -/
structure SpanContext where
  trace_id : Nat
  span_id : Nat
  deriving DecidableEq

/-- `opentelemetry.sdk.trace.ReadableSpan`, restricted to the fields the
span-tree code reads: `name`, `context`, `parent`, `start_time`, `end_time`
(nanosecond timestamps, `none` when unset) and `attributes`
(an insertion-ordered string-keyed mapping). -/
structure ReadableSpan where
  name : String
  context : Option SpanContext
  parent : Option SpanContext
  start_time : Option Nat
  end_time : Option Nat
  attributes : List (String × AttrValue)
  deriving DecidableEq

abbrev SpanId := Nat

/-! ### Association lists with Python `dict` semantics

Python `dict` preserves insertion order; assigning to an existing key
replaces the value in place (keeping the key's position), assigning a new
key appends it at the end. -/

/-- `d.get(k)` / `d[k]`-style lookup: first entry with the given key. -/
def lookupA {κ β : Type} [DecidableEq κ] (m : List (κ × β)) (k : κ) : Option β :=
  match m with
  | [] => none
  | p :: rest => if p.1 = k then some p.2 else lookupA rest k

/-- `k in d`. -/
def hasKeyA {κ β : Type} [DecidableEq κ] (m : List (κ × β)) (k : κ) : Bool :=
  (lookupA m k).isSome

/-- `d[k] = v`: replace in place if the key is present, else append. -/
def insertA {κ β : Type} [DecidableEq κ] (m : List (κ × β)) (k : κ) (v : β) :
    List (κ × β) :=
  if hasKeyA m k then m.map (fun p => if p.1 = k then (k, v) else p)
  else m ++ [(k, v)]

/-- Mutate the value stored under key `k` in place (models attribute
assignment on the node object stored in the dict). -/
def modifyA {κ β : Type} [DecidableEq κ] (m : List (κ × β)) (k : κ) (f : β → β) :
    List (κ × β) :=
  m.map (fun p => if p.1 = k then (p.1, f p.2) else p)

/-! ### SpanNode -/

/-- `SpanNode`: wraps one `ReadableSpan` whose context has been checked
non-`None` by the constructor's assertion.  The mutable `parent`
back-pointer and the `children_by_id` dict (whose keys, in insertion
order, determine child order) are modelled by span ids; the nodes they
denote live in the tree's `nodes_by_id` table. -/
structure SpanNode where
  span : ReadableSpan
  ctx : SpanContext
  parent : Option SpanId
  children_ids : List SpanId
  deriving DecidableEq

/-- `SpanNode.__init__`: `assert span.context is not None` — a span without
a context raises (modelled as `none`); otherwise the fresh node has no
parent and no children. -/
def SpanNode.ofSpan (s : ReadableSpan) : Option SpanNode :=
  match s.context with
  | none => none
  | some c => some ⟨s, c, none, []⟩

def SpanNode.span_id (n : SpanNode) : SpanId := n.ctx.span_id

def SpanNode.trace_id (n : SpanNode) : Nat := n.ctx.trace_id

def SpanNode.name (n : SpanNode) : String := n.span.name

def SpanNode.parent_context (n : SpanNode) : Option SpanContext := n.span.parent

/-- The *idealized* sort key: the exact nanosecond `start_time`, `none`
when absent.  The code's real key rounds to microseconds and cannot be
ordered against `datetime.min`; that faithful key is `pyStartKey` below.
This ideal key underlies only the order-insensitive claims. -/
def SpanNode.start_key (n : SpanNode) : Option Nat := n.span.start_time

/-- `end_time`, symmetric to `start_key`. -/
def SpanNode.end_key (n : SpanNode) : Option Nat := n.span.end_time

/-- `duration` in nanoseconds (`None` unless both timestamps are set). -/
def SpanNode.durationNs (n : SpanNode) : Option Int :=
  match n.span.start_time, n.span.end_time with
  | some a, some b => some ((b : Int) - (a : Int))
  | _, _ => none

/-- Totalized comparison of optional keys, `none` minimal.  In the code
the `none`-versus-`some` cases raise `TypeError` (naive `datetime.min`
against an aware timestamp); the faithful sort path (`pySortNodes`)
guards that error out before any comparison happens, so there these
cases are never exercised.  The idealized builder uses this total order
directly, which is sound only for the order-insensitive claims. -/
def keyLE (a b : Option Nat) : Bool :=
  match a, b with
  | none, _ => true
  | some _, none => false
  | some x, some y => decide (x ≤ y)

/-- Idealized node comparison (exact nanosecond keys). -/
def nodeLE (a b : SpanNode) : Bool := keyLE a.start_key b.start_key

/-- The same idealized comparison on raw records. -/
def spanLE (a b : ReadableSpan) : Bool := keyLE a.start_time b.start_time

/-! ### SpanTree construction -/

abbrev NodeMap := List (SpanId × SpanNode)

/-- The node-creation loop of `add_spans`:
`for span in spans: self.nodes_by_id[SpanNode(span).span_id] = node`.
Fails (`none`) iff some span fails the constructor's assertion. -/
def addNodes (m : NodeMap) : List ReadableSpan → Option NodeMap
  | [] => some m
  | s :: rest =>
    match SpanNode.ofSpan s with
    | none => none
    | some n => addNodes (insertA m n.span_id n) rest

/-- `parent.add_child(child)` on the node stored under `p`:
`children_by_id[child.span_id] = child` (insertion-ordered dict keyed by
the child's span id: a present key keeps its position, a new one is
appended). -/
def addChildTo (m : NodeMap) (p c : SpanId) : NodeMap :=
  modifyA m p (fun n =>
    { n with children_ids :=
        if c ∈ n.children_ids then n.children_ids else n.children_ids ++ [c] })

/-- `child.parent = self` on the node stored under `c`. -/
def setParentOf (m : NodeMap) (c p : SpanId) : NodeMap :=
  modifyA m c (fun n => { n with parent := some p })

/-- One iteration of the parent/child linking loop of `_rebuild_tree`:
look up the node's `parent_context` in `nodes_by_id`; when found, attach
the node as a child of the parent.  Only the immutable `span`/`ctx` data
of `child` is read, so iterating over the pre-loop node values is faithful
to Python's iteration over the (attribute-mutated) dict values. -/
def attachStep (m : NodeMap) (child : SpanNode) : NodeMap :=
  match child.parent_context with
  | none => m
  | some pctx =>
    if hasKeyA m pctx.span_id then
      setParentOf (addChildTo m pctx.span_id child.span_id) child.span_id pctx.span_id
    else m

/-- The root test of `_rebuild_tree`: parent is `None`, or the parent's
span id is not a key of `nodes_by_id`. -/
def isRootNode (m : NodeMap) (n : SpanNode) : Bool :=
  match n.parent_context with
  | none => true
  | some pctx => !hasKeyA m pctx.span_id

/-- `SpanTree._rebuild_tree`, *idealized*: stable-sort the current node
values by the exact-nanosecond total key, re-key the dict in sorted order,
run the attachment loop, then collect the roots in table order.  The
faithful variant (microsecond keys, `TypeError` on mixed lists) is
`rebuildTreePy` below; this total one serves the order-insensitive
claims. -/
def rebuildTree (m : NodeMap) : NodeMap × List SpanId :=
  let nodes := m.map Prod.snd
  let sorted := nodes.mergeSort nodeLE
  let m1 : NodeMap := sorted.map (fun n => (n.span_id, n))
  let m2 := sorted.foldl attachStep m1
  let roots := ((m2.map Prod.snd).filter (fun n => isRootNode m2 n)).map SpanNode.span_id
  (m2, roots)

/-- The built tree: `nodes_by_id` (insertion order is the canonical node
order) and `roots` (modelled by span ids; `roots` in Python holds the node
objects themselves, which live in `nodes_by_id`). -/
structure SpanTree where
  nodes_by_id : NodeMap
  roots : List SpanId
  deriving DecidableEq

/-- `SpanTree(spans)` through the idealized `_rebuild_tree`: fails iff
some span has no context. -/
def SpanTree.build (spans : List ReadableSpan) : Option SpanTree :=
  match addNodes [] spans with
  | none => none
  | some m =>
    let r := rebuildTree m
    some ⟨r.1, r.2⟩

/-! ### The faithful sort path

`nodes.sort(key=lambda node: node.start_timestamp or datetime.min)`:
`start_timestamp` is `datetime.fromtimestamp(start_time / 1e9, tz=utc)`,
a microsecond-resolution value, and `datetime.min` is timezone-naive, so
Python raises `TypeError` as soon as the sort compares an absent-start
key with a present one. -/

/-- The microsecond value of `datetime.fromtimestamp(ns / 1e9, tz=utc)`:
the nanosecond timestamp rounded to the nearest microsecond, ties to even
(the rounding CPython applies when building the `datetime`).  The
double-rounding error of the intermediate float at extreme magnitudes is
idealized away; the properties used below are only that the map has
microsecond granularity — distinct nanoseconds of one microsecond get
equal keys — which holds of the real conversion on the inputs
exercised. -/
def usOfNs (ns : Nat) : Nat :=
  if ns % 1000 < 500 then ns / 1000
  else if 500 < ns % 1000 then ns / 1000 + 1
  else if ns / 1000 % 2 = 0 then ns / 1000 else ns / 1000 + 1

/-- The faithful sort key of a node: `none` for the naive `datetime.min`
(absent `start_time`), `some u` for an aware timestamp of `u`
microseconds. -/
def SpanNode.pyStartKey (n : SpanNode) : Option Nat :=
  n.span.start_time.map usOfNs

/-- The same faithful key on raw records. -/
def ReadableSpan.pyKey (s : ReadableSpan) : Option Nat :=
  s.start_time.map usOfNs

/-- Faithful node comparison on microsecond keys.  Its `none`-versus-
`some` branches are never exercised by `pySortNodes` (the guard below
raises first, as the code does); on same-class keys it is the comparison
the code performs. -/
def pyNodeLE (a b : SpanNode) : Bool := keyLE a.pyStartKey b.pyStartKey

/-- The faithful comparison on raw records. -/
def pySpanLE (a b : ReadableSpan) : Bool := keyLE a.pyKey b.pyKey

/-- A node list whose sort raises: at least one absent and at least one
present `start_time`.  Any comparison sort of such a list must compare a
naive `datetime.min` key against an aware timestamp (within-class
comparisons cannot determine cross-class order), raising `TypeError`. -/
def mixedStartTimes (l : List SpanNode) : Bool :=
  (l.any fun n => n.span.start_time.isNone)
    && (l.any fun n => n.span.start_time.isSome)

/-- The same mixing test on raw records. -/
def mixedStarts (spans : List ReadableSpan) : Bool :=
  (spans.any fun s => s.start_time.isNone)
    && (spans.any fun s => s.start_time.isSome)

/-- The faithful `nodes.sort(...)`: raises (`none`) on a mixed list;
otherwise the keys are totally ordered and Timsort stable-sorts by
them. -/
def pySortNodes (l : List SpanNode) : Option (List SpanNode) :=
  if mixedStartTimes l then none else some (l.mergeSort pyNodeLE)

/-- The post-sort phase of `_rebuild_tree`, common to both sort paths:
re-key the dict from the sorted node list, run the parent/child linking
loop, collect the roots in table order. -/
def attachPhase (sorted : List SpanNode) : NodeMap × List SpanId :=
  let m1 : NodeMap := sorted.map (fun n => (n.span_id, n))
  let m2 := sorted.foldl attachStep m1
  let roots := ((m2.map Prod.snd).filter (fun n => isRootNode m2 n)).map SpanNode.span_id
  (m2, roots)

/-- `SpanTree._rebuild_tree` with the faithful sort: `none` when the sort
raises `TypeError`. -/
def rebuildTreePy (m : NodeMap) : Option (NodeMap × List SpanId) :=
  (pySortNodes (m.map Prod.snd)).map attachPhase

/-- The canonical node order of the faithful sort. -/
def pySortedNodes (m0 : NodeMap) : List SpanNode :=
  (m0.map Prod.snd).mergeSort pyNodeLE

/-- The canonical key order of the faithful sort. -/
def pySortedKeys (m0 : NodeMap) : List SpanId :=
  (pySortedNodes m0).map SpanNode.span_id

/-- `SpanTree(spans)` through the faithful `_rebuild_tree`: fails when a
span has no context (the constructor assertion) or when the sort raises
(mixed absent/present `start_time`). -/
def SpanTree.buildPy (spans : List ReadableSpan) : Option SpanTree :=
  match addNodes [] spans with
  | none => none
  | some m =>
    match rebuildTreePy m with
    | none => none
    | some r => some ⟨r.1, r.2⟩

/-! ### SpanNode.matches -/

/-- The attribute loop of `matches`: for each supplied `(key, value)`,
`span_attributes.get(key) != value` returns `False`; otherwise continue. -/
def matchLoop (span_attributes : List (String × AttrValue)) :
    List (String × AttrValue) → Bool
  | [] => true
  | (k, v) :: rest =>
    if lookupA span_attributes k = some v then matchLoop span_attributes rest
    else false

/-- `SpanNode.matches(name=None, attributes=None)`.  `if attributes:` is
Python truthiness: `None` and the empty dict both skip the loop. -/
def SpanNode.matches (n : SpanNode) (nm : Option String)
    (attributes : Option (List (String × AttrValue))) : Bool :=
  match nm with
  | some x =>
    if n.name = x then
      match attributes with
      | none => true
      | some attrs => if attrs.isEmpty then true else matchLoop n.span.attributes attrs
    else false
  | none =>
    match attributes with
    | none => true
    | some attrs => if attrs.isEmpty then true else matchLoop n.span.attributes attrs

/-! ### XML-like rendering

`repr_xml` is modelled at the granularity of output lines: the Python code
builds its result with `'\n'.join` and `textwrap.indent(..., '  ')`, and
every intermediate line is newline-free (names pass through `repr`, which
escapes newlines), so a `List String` of lines whose `'\n'`-intercalation
is the final string is a faithful decomposition. -/

/-- The single-quote character, written by code point to keep the source
free of quote literals. -/
def sq : Char := Char.ofNat 39

/-- One character of Python `repr` for strings: escape the backslash, the
quote and the common control characters; other characters unchanged.
(Python additionally escapes other non-printables and may switch quote
style; those cases do not affect any property proved here.) -/
def pyReprChar (c : Char) : String :=
  if c = sq then "\\" ++ String.singleton sq
  else if c = '\\' then "\\\\"
  else if c = '\n' then "\\n"
  else if c = '\r' then "\\r"
  else if c = '\t' then "\\t"
  else String.singleton c

/-- Python `repr` of a string (`f'{s!r}'`): quote-delimited with escapes.
Its output never contains a newline. -/
def pyRepr (s : String) : String :=
  String.singleton sq ++ String.join (s.data.map pyReprChar) ++ String.singleton sq

/-- `f'{n:016x}'`-style zero-padded lowercase hex. -/
def hexPad (w : Nat) (n : Nat) : String :=
  let ds := Nat.toDigits 16 n
  String.mk (List.replicate (w - ds.length) '0' ++ ds)

/-- Stand-in for `repr(self.start_timestamp)` (a `datetime | None`);
rendered only when `include_start_timestamp=True`, which no claim uses. -/
def reprTimestamp (t : Option Nat) : String :=
  match t with
  | none => "None"
  | some ns => "datetime.from-ns " ++ toString ns

/-- Stand-in for `repr(self.duration)` (a `timedelta | None`);
rendered only when `include_duration=True`, which no claim uses. -/
def reprDuration (d : Option Int) : String :=
  match d with
  | none => "None"
  | some ns => "timedelta.from-ns " ++ toString ns

/-- `' '.join(parts)`. -/
def joinSpace : List String → String
  | [] => ""
  | [p] => p
  | p :: rest => p ++ " " ++ joinSpace rest

/-- `first_line_parts` of `SpanNode.repr_xml` before the closing marker. -/
def SpanNode.firstLineParts (n : SpanNode)
    (include_span_id include_trace_id include_start_timestamp include_duration : Bool) :
    List String :=
  ["<SpanNode name=" ++ pyRepr n.name]
  ++ (if include_span_id then ["span_id=" ++ hexPad 16 n.span_id] else [])
  ++ (if include_trace_id then ["trace_id=" ++ hexPad 32 n.trace_id] else [])
  ++ (if include_start_timestamp then ["start_timestamp=" ++ reprTimestamp n.start_key] else [])
  ++ (if include_duration then ["duration=" ++ reprDuration n.durationNs] else [])

/-- `SpanNode.repr_xml`, as its list of output lines.  Children are the
values of `children_by_id`, looked up in `nodes_by_id` (where every child
id of a built tree is a key).  The recursion follows child pointers; the
`fuel` argument bounds its depth and is irrelevant for trees produced by
the builder, whose child edges cannot reach a cycle from a root (each node
has at most one parent). -/
def nodeLines (m : NodeMap)
    (include_children include_span_id include_trace_id include_start_timestamp
      include_duration : Bool) :
    Nat → SpanNode → List String
  | 0, _ => []
  | fuel + 1, n =>
    let parts := n.firstLineParts include_span_id include_trace_id
      include_start_timestamp include_duration
    let childNodes := n.children_ids.filterMap (lookupA m)
    if include_children && !childNodes.isEmpty then
      joinSpace (parts ++ [">"]) ::
        ((childNodes.map (fun c =>
          (nodeLines m include_children include_span_id include_trace_id
              include_start_timestamp include_duration fuel c).map
            (fun l => "  " ++ l))).flatten
        ++ ["</SpanNode>"])
    else
      [joinSpace (parts
        ++ (if !childNodes.isEmpty then ["children=..."] else [])
        ++ ["/>"])]

/-- The root node objects of the tree, in root order. -/
def SpanTree.rootNodes (t : SpanTree) : List SpanNode :=
  t.roots.filterMap (lookupA t.nodes_by_id)

/-- `SpanTree.repr_xml`, as its list of output lines: `<SpanTree>`, each
root's block indented by two spaces, then `</SpanTree>`. -/
def SpanTree.reprXmlLines (t : SpanTree)
    (include_children include_span_id include_trace_id include_start_timestamp
      include_duration : Bool) : List String :=
  "<SpanTree>" ::
    ((t.rootNodes.map (fun r =>
      (nodeLines t.nodes_by_id include_children include_span_id include_trace_id
          include_start_timestamp include_duration (t.nodes_by_id.length + 1) r).map
        (fun l => "  " ++ l))).flatten
    ++ ["</SpanTree>"])

/-- `SpanTree.repr_xml` as the final string. -/
def SpanTree.repr_xml (t : SpanTree)
    (include_children include_span_id include_trace_id include_start_timestamp
      include_duration : Bool) : String :=
  String.intercalate "\n"
    (t.reprXmlLines include_children include_span_id include_trace_id
      include_start_timestamp include_duration)

/-! ### Tag counting for the rendering claim -/

/-- Drop the indentation of a rendered line. -/
def stripSpaces : List Char → List Char
  | [] => []
  | c :: rest => if c = ' ' then stripSpaces rest else c :: rest

/-- An opening `<SpanNode ...` tag line (leaf `/>` lines included). -/
def isOpenNodeLine (l : String) : Bool :=
  List.isPrefixOf "<SpanNode ".data (stripSpaces l.data)

/-- A closing `</SpanNode>` tag line. -/
def isCloseNodeLine (l : String) : Bool :=
  stripSpaces l.data = "</SpanNode>".data

/-- The `<SpanTree>` opening tag line. -/
def isTreeOpenLine (l : String) : Bool :=
  stripSpaces l.data = "<SpanTree>".data

/-- The number of nodes in the rendered expansion of a node: itself plus,
recursively, its children (computed with the same fuel discipline as
`nodeLines`).  For a tree whose nodes are all reachable from the roots
this totals the node count. -/
def subtreeCount (m : NodeMap) : Nat → SpanNode → Nat
  | 0, _ => 0
  | fuel + 1, n =>
    1 + ((n.children_ids.filterMap (lookupA m)).map (subtreeCount m fuel)).sum

/-- The number of nodes with at least one child in the rendered expansion
of a node. -/
def closedCount (m : NodeMap) : Nat → SpanNode → Nat
  | 0, _ => 0
  | fuel + 1, n =>
    let cs := n.children_ids.filterMap (lookupA m)
    (if cs.isEmpty then 0 else 1) + (cs.map (closedCount m fuel)).sum

/-! ### Specification-side rendering

The spec describes the output layout directly: children nested and
indented by two spaces per level.  The following renderer follows those
words — each line of a node at nesting depth `d` (the roots sit at depth
1, below the `<SpanTree>` tag) carries a flat prefix of exactly `2*d`
spaces — and is proved equal to the source-translated renderer above,
which indents by wrapping each child block with `textwrap.indent('  ')`
at every level. -/

/-- `2*d` spaces of indentation for depth `d`. -/
def specIndent (d : Nat) : String := String.mk (List.replicate (2 * d) ' ')

/-- The spec's renderer for one node at depth `d`: every line of the node
itself is indented by exactly `2*d` spaces, children are rendered at
depth `d + 1`. -/
def specNodeLines (m : NodeMap)
    (include_children include_span_id include_trace_id include_start_timestamp
      include_duration : Bool) :
    Nat → Nat → SpanNode → List String
  | 0, _, _ => []
  | fuel + 1, d, n =>
    let parts := n.firstLineParts include_span_id include_trace_id
      include_start_timestamp include_duration
    let childNodes := n.children_ids.filterMap (lookupA m)
    if include_children && !childNodes.isEmpty then
      (specIndent d ++ joinSpace (parts ++ [">"])) ::
        ((childNodes.map (specNodeLines m include_children include_span_id
            include_trace_id include_start_timestamp include_duration fuel (d + 1))).flatten
        ++ [specIndent d ++ "</SpanNode>"])
    else
      [specIndent d ++ joinSpace (parts
        ++ (if !childNodes.isEmpty then ["children=..."] else [])
        ++ ["/>"])]

/-- The spec's rendering of the whole tree: the unindented `<SpanTree>`
and `</SpanTree>` tags around the roots rendered at depth 1. -/
def SpanTree.specRenderLines (t : SpanTree)
    (include_children include_span_id include_trace_id include_start_timestamp
      include_duration : Bool) : List String :=
  "<SpanTree>" ::
    ((t.rootNodes.map (specNodeLines t.nodes_by_id include_children include_span_id
        include_trace_id include_start_timestamp include_duration
        (t.nodes_by_id.length + 1) 1)).flatten
    ++ ["</SpanTree>"])

/-! ### The context-scoped in-memory span exporter -/

/-- `SpanExportResult`. -/
inductive SpanExportResult where
  | success
  | failure
  deriving DecidableEq

/-- State of `_ContextInMemorySpanExporter`: the per-context buffers
(`defaultdict(list)`, insertion-ordered) and the `_stopped` flag.  The
lock serialises access; each method below is one critical section. -/
structure ExporterState where
  finished_spans : List (String × List ReadableSpan)
  stopped : Bool
  deriving DecidableEq

/-- `self._finished_spans[context_id].extend(spans)` on a `defaultdict`:
extend in place when present, otherwise create the entry at the end. -/
def extendBuffer (buf : List (String × List ReadableSpan)) (cid : String)
    (spans : List ReadableSpan) : List (String × List ReadableSpan) :=
  if hasKeyA buf cid then modifyA buf cid (fun l => l ++ spans)
  else buf ++ [(cid, spans)]

/-- `export(spans)`: fail after shutdown; otherwise append to the buffer of
the ambient context id (a `ContextVar`, passed here as an argument), or
silently drop the spans when no context is active. -/
def ExporterState.exportSpans (st : ExporterState) (ctx : Option String)
    (spans : List ReadableSpan) : ExporterState × SpanExportResult :=
  if st.stopped then (st, .failure)
  else
    match ctx with
    | none => (st, .success)
    | some cid =>
      ({ st with finished_spans := extendBuffer st.finished_spans cid spans }, .success)

/-- `shutdown()`: set `_stopped`. -/
def ExporterState.shutdown (st : ExporterState) : ExporterState :=
  { st with stopped := true }

/-- `clear(context_id)`. -/
def ExporterState.clear (st : ExporterState) (ctx : Option String) : ExporterState :=
  match ctx with
  | none => { st with finished_spans := [] }
  | some cid => { st with finished_spans := st.finished_spans.filter (fun p => p.1 ≠ cid) }

/-- `get_finished_spans(context_id)` (read-only). -/
def ExporterState.getFinishedSpans (st : ExporterState) (ctx : Option String) :
    List ReadableSpan :=
  match ctx with
  | none => (st.finished_spans.map Prod.snd).flatten
  | some cid =>
    match lookupA st.finished_spans cid with
    | none => []
    | some l => l

/-- `force_flush(timeout_millis)`: a no-op returning `True`. -/
def ExporterState.forceFlush (st : ExporterState) : ExporterState × Bool :=
  (st, true)

/-- One call into the exporter (the context id of `export` is the ambient
`ContextVar` value at call time). -/
inductive ExporterOp where
  | exportOp (ctx : Option String) (spans : List ReadableSpan)
  | clearOp (ctx : Option String)
  | getOp (ctx : Option String)
  | shutdownOp
  | forceFlushOp

/-- Apply one call, keeping only the state. -/
def applyOp (st : ExporterState) : ExporterOp → ExporterState
  | .exportOp ctx spans => (st.exportSpans ctx spans).1
  | .clearOp ctx => st.clear ctx
  | .getOp _ => st
  | .shutdownOp => st.shutdown
  | .forceFlushOp => (st.forceFlush).1

/-- Apply a sequence of calls. -/
def applyOps (st : ExporterState) (ops : List ExporterOp) : ExporterState :=
  ops.foldl applyOp st

/-! ## Lemmas: association lists -/

theorem lookupA_nil {κ β : Type} [DecidableEq κ] (k : κ) :
    lookupA ([] : List (κ × β)) k = none := rfl

theorem lookupA_cons {κ β : Type} [DecidableEq κ] (p : κ × β) (m : List (κ × β)) (k : κ) :
    lookupA (p :: m) k = if p.1 = k then some p.2 else lookupA m k := rfl

theorem lookupA_append {κ β : Type} [DecidableEq κ] (m m' : List (κ × β)) (k : κ) :
    lookupA (m ++ m') k = ((lookupA m k).or (lookupA m' k)) := by
  induction m with
  | nil => simp [lookupA]
  | cons p rest ih =>
    by_cases h : p.1 = k <;> simp [lookupA, h, ih]

theorem lookupA_mem {κ β : Type} [DecidableEq κ] {m : List (κ × β)} {k : κ} {v : β}
    (h : lookupA m k = some v) : (k, v) ∈ m := by
  induction m with
  | nil => simp [lookupA] at h
  | cons p rest ih =>
    rw [lookupA_cons] at h
    by_cases hk : p.1 = k
    · rw [if_pos hk, Option.some.injEq] at h
      rw [List.mem_cons]
      left
      rw [Prod.ext_iff]
      exact ⟨hk.symm, h.symm⟩
    · rw [if_neg hk] at h
      exact List.mem_cons_of_mem _ (ih h)

theorem lookupA_isSome_iff {κ β : Type} [DecidableEq κ] (m : List (κ × β)) (k : κ) :
    (lookupA m k).isSome = true ↔ k ∈ m.map Prod.fst := by
  induction m with
  | nil => simp [lookupA]
  | cons p rest ih =>
    rw [lookupA_cons]
    by_cases hk : p.1 = k
    · simp [hk]
    · have hk2 : ¬ k = p.1 := fun hc => hk hc.symm
      simp [hk, hk2, ih]

theorem lookupA_eq_none_iff {κ β : Type} [DecidableEq κ] (m : List (κ × β)) (k : κ) :
    lookupA m k = none ↔ k ∉ m.map Prod.fst := by
  rw [← lookupA_isSome_iff]
  cases h : lookupA m k <;> simp [h]

theorem mem_lookupA {κ β : Type} [DecidableEq κ] {m : List (κ × β)} {k : κ} {v : β}
    (hnd : (m.map Prod.fst).Nodup) (h : (k, v) ∈ m) : lookupA m k = some v := by
  induction m with
  | nil => simp at h
  | cons p rest ih =>
    simp only [List.map_cons, List.nodup_cons] at hnd
    rcases List.mem_cons.mp h with h1 | h1
    · subst h1
      simp [lookupA_cons]
    · have hk : p.1 ≠ k := by
        intro hcontra
        exact hnd.1 (hcontra ▸ (List.mem_map.mpr ⟨(k, v), h1, rfl⟩))
      rw [lookupA_cons, if_neg hk]
      exact ih hnd.2 h1

theorem lookupA_perm {κ β : Type} [DecidableEq κ] {m m' : List (κ × β)}
    (hp : m.Perm m') (hnd : (m'.map Prod.fst).Nodup) (k : κ) :
    lookupA m k = lookupA m' k := by
  have hnd' : (m.map Prod.fst).Nodup := ((hp.map Prod.fst).nodup_iff).mpr hnd
  cases h : lookupA m' k with
  | none =>
    rw [lookupA_eq_none_iff] at h ⊢
    intro hmem
    exact h ((hp.map Prod.fst).mem_iff.mp hmem)
  | some v =>
    exact mem_lookupA hnd' (hp.mem_iff.mpr (lookupA_mem h))

theorem lookupA_mapVal {κ β : Type} [DecidableEq κ] (m : List (κ × β)) (f : κ → β → β)
    (k : κ) :
    lookupA (m.map (fun p => (p.1, f p.1 p.2))) k = (lookupA m k).map (f k) := by
  induction m with
  | nil => simp [lookupA]
  | cons p rest ih =>
    by_cases h : p.1 = k
    · subst h
      simp [lookupA_cons]
    · simp [lookupA_cons, h, ih]

theorem keys_modifyA {κ β : Type} [DecidableEq κ] (m : List (κ × β)) (k : κ) (f : β → β) :
    (modifyA m k f).map Prod.fst = m.map Prod.fst := by
  unfold modifyA
  rw [List.map_map]
  apply List.map_congr_left
  intro p _
  by_cases h : p.1 = k <;> simp [h]

theorem lookupA_modifyA {κ β : Type} [DecidableEq κ] (m : List (κ × β)) (k : κ)
    (f : β → β) (k2 : κ) :
    lookupA (modifyA m k f) k2 =
      if k = k2 then (lookupA m k2).map f else lookupA m k2 := by
  induction m with
  | nil => by_cases h : k = k2 <;> simp [modifyA, lookupA, h]
  | cons p rest ih =>
    simp only [modifyA, List.map_cons] at ih ⊢
    by_cases hp : p.1 = k
    · subst hp
      by_cases h2 : p.1 = k2
      · subst h2
        simp [lookupA_cons]
      · simp [lookupA_cons, h2, ih]
    · by_cases h2 : p.1 = k2
      · subst h2
        have hk2 : ¬ k = p.1 := fun hc => hp hc.symm
        simp [lookupA_cons, hp, hk2]
      · simp [lookupA_cons, hp, h2, ih]

theorem lookupA_insertA {κ β : Type} [DecidableEq κ] (m : List (κ × β)) (k : κ) (v : β)
    (k2 : κ) :
    lookupA (insertA m k v) k2 = if k = k2 then some v else lookupA m k2 := by
  unfold insertA
  by_cases hmem : hasKeyA m k
  · rw [if_pos hmem]
    have hmap : m.map (fun p => if p.1 = k then (k, v) else p) = modifyA m k (fun _ => v) := by
      unfold modifyA
      apply List.map_congr_left
      intro p _
      by_cases hp : p.1 = k
      · rw [if_pos hp, if_pos hp, hp]
      · rw [if_neg hp, if_neg hp]
    rw [hmap, lookupA_modifyA]
    by_cases hk : k = k2
    · subst hk
      rw [if_pos rfl, if_pos rfl]
      unfold hasKeyA at hmem
      cases h : lookupA m k with
      | none => rw [h] at hmem; simp at hmem
      | some w => rfl
    · simp [hk]
  · rw [if_neg hmem, lookupA_append]
    by_cases hk : k = k2
    · subst hk
      rw [if_pos rfl]
      have hnone : lookupA m k = none := by
        unfold hasKeyA at hmem
        cases h : lookupA m k with
        | none => rfl
        | some w => rw [h] at hmem; simp at hmem
      rw [hnone]
      simp [lookupA_cons]
    · rw [if_neg hk]
      have h1 : lookupA [(k, v)] k2 = none := by simp [lookupA_cons, lookupA_nil, hk]
      rw [h1, Option.or_none]

theorem insertA_of_not_mem {κ β : Type} [DecidableEq κ] (m : List (κ × β))
    (k : κ) (v : β) (h : ¬ hasKeyA m k) :
    insertA m k v = m ++ [(k, v)] := by
  simp [insertA, h]

theorem keys_insertA {κ β : Type} [DecidableEq κ] (m : List (κ × β)) (k : κ) (v : β) :
    (insertA m k v).map Prod.fst =
      if hasKeyA m k then m.map Prod.fst else m.map Prod.fst ++ [k] := by
  unfold insertA
  by_cases h : hasKeyA m k
  · rw [if_pos h, if_pos h, List.map_map]
    apply List.map_congr_left
    intro p _
    by_cases hp : p.1 = k <;> simp [hp]
  · simp [h]

/-! ## Lemmas: the node-creation loop (`add_spans`, first half) -/

/-- The span id a record contributes to the node table (`none` when the
record has no context and the constructor would raise). -/
def recordId (s : ReadableSpan) : Option SpanId := s.context.map SpanContext.span_id

/-- All span ids occurring in a record list, in order, duplicates kept. -/
def spanIds (spans : List ReadableSpan) : List SpanId := spans.filterMap recordId

/-- The last record in input order carrying the given span id. -/
def lastWith (k : SpanId) (spans : List ReadableSpan) : Option ReadableSpan :=
  (spans.filter (fun s => decide (recordId s = some k))).getLast?

/-- The `(span_id, node)` entry a record contributes. -/
def freshEntry (s : ReadableSpan) : Option (SpanId × SpanNode) :=
  (SpanNode.ofSpan s).map (fun n => (n.span_id, n))

theorem ofSpan_of_context {s : ReadableSpan} {c : SpanContext} (h : s.context = some c) :
    SpanNode.ofSpan s = some ⟨s, c, none, []⟩ := by
  unfold SpanNode.ofSpan
  rw [h]

theorem ofSpan_isSome {s : ReadableSpan} (h : s.context.isSome) :
    (SpanNode.ofSpan s).isSome := by
  unfold SpanNode.ofSpan
  cases hc : s.context with
  | none => rw [hc] at h; simp at h
  | some c => simp

theorem addNodes_isSome (spans : List ReadableSpan) :
    ∀ m : NodeMap, (∀ s ∈ spans, (s.context).isSome) → (addNodes m spans).isSome := by
  induction spans with
  | nil =>
    intro m _
    simp [addNodes]
  | cons s rest ih =>
    intro m h
    have hs : s.context.isSome := h s (List.mem_cons_self _ _)
    cases hc : s.context with
    | none => rw [hc] at hs; simp at hs
    | some c =>
      have hos := ofSpan_of_context hc
      rw [show addNodes m (s :: rest)
            = addNodes (insertA m (SpanNode.span_id ⟨s, c, none, []⟩) ⟨s, c, none, []⟩) rest by
        rw [addNodes, hos]]
      exact ih _ (fun t ht => h t (List.mem_cons_of_mem _ ht))

theorem lastWith_cons (k : SpanId) (s : ReadableSpan) (rest : List ReadableSpan) :
    lastWith k (s :: rest) =
      match lastWith k rest with
      | some x => some x
      | none => if recordId s = some k then some s else none := by
  unfold lastWith
  by_cases hp : recordId s = some k
  · rw [List.filter_cons_of_pos (by simpa using hp), List.getLast?_cons]
    cases hl : (rest.filter (fun t => decide (recordId t = some k))).getLast? with
    | none => simp [hp]
    | some x => simp
  · rw [List.filter_cons_of_neg (by simpa using hp)]
    cases hl : (rest.filter (fun t => decide (recordId t = some k))).getLast? with
    | none => simp [hp]
    | some x => simp

theorem addNodes_lookupA (spans : List ReadableSpan) :
    ∀ (m m' : NodeMap), addNodes m spans = some m' → ∀ k,
      lookupA m' k =
        match lastWith k spans with
        | some s => SpanNode.ofSpan s
        | none => lookupA m k := by
  induction spans with
  | nil =>
    intro m m' h k
    simp [addNodes] at h
    subst h
    simp [lastWith]
  | cons s rest ih =>
    intro m m' h k
    cases hos : SpanNode.ofSpan s with
    | none => rw [addNodes, hos] at h; simp at h
    | some n =>
      rw [addNodes, hos] at h
      have h' : addNodes (insertA m n.span_id n) rest = some m' := h
      have hk := ih _ _ h' k
      have hrid : recordId s = some n.span_id := by
        unfold SpanNode.ofSpan at hos
        cases hc : s.context with
        | none => rw [hc] at hos; simp at hos
        | some c =>
          rw [hc] at hos
          simp only [Option.some.injEq] at hos
          subst hos
          simp [recordId, SpanNode.span_id, hc]
      rw [hk, lastWith_cons]
      cases hl : lastWith k rest with
      | some x => rfl
      | none =>
        show lookupA (insertA m n.span_id n) k = _
        rw [lookupA_insertA]
        by_cases hid : n.span_id = k
        · rw [if_pos hid]
          rw [hid] at hrid
          rw [if_pos hrid]
          show some n = SpanNode.ofSpan s
          rw [hos]
        · rw [if_neg hid]
          have hne : ¬ (recordId s = some k) := by
            rw [hrid]
            simp [hid]
          rw [if_neg hne]

theorem lastWith_isSome_iff (k : SpanId) (spans : List ReadableSpan) :
    (lastWith k spans).isSome ↔ k ∈ spanIds spans := by
  unfold lastWith spanIds
  rw [List.getLast?_isSome]
  constructor
  · intro h
    obtain ⟨s, hs⟩ := List.exists_mem_of_ne_nil _ h
    have := List.of_mem_filter hs
    simp only [decide_eq_true_eq] at this
    exact List.mem_filterMap.mpr ⟨s, List.mem_of_mem_filter hs, this⟩
  · intro h
    obtain ⟨s, hs, hid⟩ := List.mem_filterMap.mp h
    intro hnil
    have : s ∈ spans.filter (fun t => decide (recordId t = some k)) :=
      List.mem_filter.mpr ⟨hs, by simpa using hid⟩
    rw [hnil] at this
    simp at this

theorem lastWith_context {k : SpanId} {spans : List ReadableSpan} {s : ReadableSpan}
    (h : lastWith k spans = some s) : recordId s = some k ∧ s ∈ spans := by
  unfold lastWith at h
  have hmem := List.mem_of_mem_getLast? (Option.mem_def.mpr h)
  refine ⟨?_, List.mem_of_mem_filter hmem⟩
  have := List.of_mem_filter hmem
  simpa using this

theorem addNodes_mem_keys (spans : List ReadableSpan) (m m' : NodeMap)
    (h : addNodes m spans = some m') (k : SpanId) :
    k ∈ m'.map Prod.fst ↔ k ∈ m.map Prod.fst ∨ k ∈ spanIds spans := by
  rw [← lookupA_isSome_iff, ← lookupA_isSome_iff, addNodes_lookupA spans m m' h k]
  cases hl : lastWith k spans with
  | none =>
    have : ¬ k ∈ spanIds spans := by
      rw [← lastWith_isSome_iff, hl]
      simp
    simp [this]
  | some s =>
    have hctx : (SpanNode.ofSpan s).isSome := by
      apply ofSpan_isSome
      have := (lastWith_context hl).1
      unfold recordId at this
      cases hc : s.context with
      | none => rw [hc] at this; simp at this
      | some c => simp
    have hk : k ∈ spanIds spans := by
      rw [← lastWith_isSome_iff, hl]
      simp
    simp [hctx, hk]

theorem addNodes_eq_append (spans : List ReadableSpan) :
    ∀ m : NodeMap, (∀ s ∈ spans, (s.context).isSome) → (spanIds spans).Nodup →
      (∀ k ∈ spanIds spans, ¬ (hasKeyA m k = true)) →
      addNodes m spans = some (m ++ spans.filterMap freshEntry) := by
  induction spans with
  | nil =>
    intro m _ _ _
    simp [addNodes]
  | cons s rest ih =>
    intro m hctx hnd hdisj
    have hs : s.context.isSome := hctx s (List.mem_cons_self _ _)
    cases hc : s.context with
    | none => rw [hc] at hs; simp at hs
    | some c =>
      have hos := ofSpan_of_context hc
      have hrid : recordId s = some c.span_id := by
        unfold recordId
        rw [hc]
        rfl
      have hids : spanIds (s :: rest) = c.span_id :: spanIds rest := by
        unfold spanIds
        rw [List.filterMap_cons, hrid]
      rw [hids] at hnd hdisj
      have hnd' := List.nodup_cons.mp hnd
      rw [addNodes, hos]
      simp only
      have hkey : SpanNode.span_id ⟨s, c, none, []⟩ = c.span_id := rfl
      have hnotin : ¬ (hasKeyA m c.span_id = true) :=
        hdisj c.span_id (List.mem_cons_self _ _)
      rw [hkey, insertA_of_not_mem m c.span_id _ hnotin]
      have hdisj2 : ∀ k ∈ spanIds rest,
          ¬ (hasKeyA (m ++ [(c.span_id, (⟨s, c, none, []⟩ : SpanNode))]) k = true) := by
        intro k hk
        unfold hasKeyA
        rw [lookupA_append]
        have h1 : lookupA m k = none := by
          have := hdisj k (List.mem_cons_of_mem _ hk)
          unfold hasKeyA at this
          cases hres : lookupA m k with
          | none => rfl
          | some w => rw [hres] at this; simp at this
        rw [h1]
        have h2 : lookupA [(c.span_id, (⟨s, c, none, []⟩ : SpanNode))] k = none := by
          have hne : c.span_id ≠ k := fun hcontra => hnd'.1 (hcontra ▸ hk)
          simp [lookupA_cons, lookupA_nil, hne]
        rw [h2]
        simp
      have happ := ih (m ++ [(c.span_id, ⟨s, c, none, []⟩)])
        (fun t ht => hctx t (List.mem_cons_of_mem _ ht)) hnd'.2 hdisj2
      rw [happ, List.filterMap_cons]
      have : freshEntry s = some (c.span_id, ⟨s, c, none, []⟩) := by
        unfold freshEntry
        rw [hos]
        rfl
      rw [this]
      simp

theorem filterMap_freshEntry_spans (spans : List ReadableSpan)
    (h : ∀ s ∈ spans, (s.context).isSome) :
    (spans.filterMap freshEntry).map (fun p => (p.2 : SpanNode).span) = spans := by
  induction spans with
  | nil => rfl
  | cons s rest ih =>
    have hs : s.context.isSome := h s (List.mem_cons_self _ _)
    cases hc : s.context with
    | none => rw [hc] at hs; simp at hs
    | some c =>
      rw [List.filterMap_cons]
      have : freshEntry s = some (c.span_id, ⟨s, c, none, []⟩) := by
        unfold freshEntry
        rw [ofSpan_of_context hc]
        rfl
      rw [this]
      simp only [List.map_cons]
      rw [ih (fun t ht => h t (List.mem_cons_of_mem _ ht))]

/-! ## Lemmas: the attachment loop of `_rebuild_tree`

The loop `for node in nodes_by_id.values(): ... parent_node.add_child(node)`
is characterised in closed form: each entry's final `children_ids` is the
sorted-order list of ids claiming it as parent, and each entry's `parent`
back-pointer is set exactly when its own record names a present parent. -/

theorem hasKeyA_iff_mem {κ β : Type} [DecidableEq κ] (m : List (κ × β)) (k : κ) :
    hasKeyA m k = true ↔ k ∈ m.map Prod.fst := lookupA_isSome_iff m k

/-- The parent id a node will be attached to: its `parent_context`'s span
id when that id is a key of the table, and `none` otherwise. -/
def parentTarget (K : List SpanId) (c : SpanNode) : Option SpanId :=
  match c.parent_context with
  | none => none
  | some pctx => if pctx.span_id ∈ K then some pctx.span_id else none

/-- The child ids the attachment loop appends to the entry keyed `k`, in
loop order. -/
def childrenOf (K : List SpanId) (cs : List SpanNode) (k : SpanId) : List SpanId :=
  (cs.filter (fun c => decide (parentTarget K c = some k))).map SpanNode.span_id

/-- The final `parent` pointer of the entry keyed `k` after the loop,
starting from `p0`. -/
def parentUpd (K : List SpanId) (cs : List SpanNode) (k : SpanId) (p0 : Option SpanId) :
    Option SpanId :=
  match cs.find? (fun c => decide (c.span_id = k)) with
  | some c =>
    match parentTarget K c with
    | some q => some q
    | none => p0
  | none => p0

/-- Closed form of the attachment loop's effect on one entry. -/
def attachResult (K : List SpanId) (cs : List SpanNode) (k : SpanId) (n : SpanNode) :
    SpanNode :=
  { n with
    children_ids := n.children_ids ++ childrenOf K cs k,
    parent := parentUpd K cs k n.parent }

theorem attachStep_of_target_none {m : NodeMap} {c : SpanNode}
    (h : parentTarget (m.map Prod.fst) c = none) : attachStep m c = m := by
  unfold attachStep
  unfold parentTarget at h
  cases hpc : c.parent_context with
  | none => rfl
  | some pctx =>
    rw [hpc] at h
    have h2 : (if pctx.span_id ∈ m.map Prod.fst then some pctx.span_id else none)
        = (none : Option SpanId) := h
    show (if hasKeyA m pctx.span_id = true then
        setParentOf (addChildTo m pctx.span_id c.span_id) c.span_id pctx.span_id
      else m) = m
    by_cases hmem : pctx.span_id ∈ m.map Prod.fst
    · rw [if_pos hmem] at h2
      simp at h2
    · have hkey : ¬ (hasKeyA m pctx.span_id = true) := by
        rw [hasKeyA_iff_mem]
        exact hmem
      rw [if_neg hkey]

theorem attachStep_of_target_some {m : NodeMap} {c : SpanNode} {q : SpanId}
    (h : parentTarget (m.map Prod.fst) c = some q) :
    attachStep m c = setParentOf (addChildTo m q c.span_id) c.span_id q := by
  unfold attachStep
  unfold parentTarget at h
  cases hpc : c.parent_context with
  | none => rw [hpc] at h; simp at h
  | some pctx =>
    rw [hpc] at h
    have h2 : (if pctx.span_id ∈ m.map Prod.fst then some pctx.span_id else none)
        = some q := h
    show (if hasKeyA m pctx.span_id = true then
        setParentOf (addChildTo m pctx.span_id c.span_id) c.span_id pctx.span_id
      else m) = setParentOf (addChildTo m q c.span_id) c.span_id q
    by_cases hmem : pctx.span_id ∈ m.map Prod.fst
    · rw [if_pos hmem, Option.some.injEq] at h2
      subst h2
      have hkey : hasKeyA m pctx.span_id = true := (hasKeyA_iff_mem m _).mpr hmem
      rw [if_pos hkey]
    · rw [if_neg hmem] at h2
      simp at h2

theorem parentTarget_congr {K K2 : List SpanId} (c : SpanNode)
    (h : ∀ x, x ∈ K ↔ x ∈ K2) : parentTarget K c = parentTarget K2 c := by
  unfold parentTarget
  cases hpc : c.parent_context with
  | none => rfl
  | some pctx =>
    show (if pctx.span_id ∈ K then some pctx.span_id else none)
        = (if pctx.span_id ∈ K2 then some pctx.span_id else none)
    by_cases hmem : pctx.span_id ∈ K
    · rw [if_pos hmem, if_pos ((h _).mp hmem)]
    · rw [if_neg hmem, if_neg (fun hc => hmem ((h _).mpr hc))]

theorem childrenOf_nil (K : List SpanId) (k : SpanId) : childrenOf K [] k = [] := rfl

theorem parentUpd_nil (K : List SpanId) (k : SpanId) (p0 : Option SpanId) :
    parentUpd K [] k p0 = p0 := rfl

theorem attachResult_nil (K : List SpanId) (k : SpanId) (n : SpanNode) :
    attachResult K [] k n = n := by
  cases n with
  | mk sp cx pa ch =>
    unfold attachResult
    rw [childrenOf_nil, parentUpd_nil]
    simp

theorem childrenOf_cons_pos {K : List SpanId} {c : SpanNode} {k : SpanId}
    (cs : List SpanNode) (h : parentTarget K c = some k) :
    childrenOf K (c :: cs) k = c.span_id :: childrenOf K cs k := by
  unfold childrenOf
  rw [List.filter_cons_of_pos (by simp [h]), List.map_cons]

theorem childrenOf_cons_neg {K : List SpanId} {c : SpanNode} {k : SpanId}
    (cs : List SpanNode) (h : ¬ (parentTarget K c = some k)) :
    childrenOf K (c :: cs) k = childrenOf K cs k := by
  unfold childrenOf
  rw [List.filter_cons_of_neg (by simp [h])]

theorem parentUpd_cons_pos {c : SpanNode} {k : SpanId} (K : List SpanId)
    (cs : List SpanNode) (p0 : Option SpanId) (h : c.span_id = k) :
    parentUpd K (c :: cs) k p0 =
      match parentTarget K c with
      | some q => some q
      | none => p0 := by
  unfold parentUpd
  rw [List.find?_cons_of_pos _ (by simp [h])]

theorem parentUpd_cons_neg {c : SpanNode} {k : SpanId} (K : List SpanId)
    (cs : List SpanNode) (p0 : Option SpanId) (h : ¬ (c.span_id = k)) :
    parentUpd K (c :: cs) k p0 = parentUpd K cs k p0 := by
  unfold parentUpd
  rw [List.find?_cons_of_neg _ (by simp [h])]

theorem parentUpd_of_find_none {k : SpanId} {cs : List SpanNode} (K : List SpanId)
    (p0 : Option SpanId) (hfind : cs.find? (fun d => decide (d.span_id = k)) = none) :
    parentUpd K cs k p0 = p0 := by
  unfold parentUpd
  rw [hfind]

/-- Field-wise extensionality for `SpanNode`. -/
theorem SpanNode.ext_fields {a b : SpanNode} (h1 : a.span = b.span) (h2 : a.ctx = b.ctx)
    (h3 : a.parent = b.parent) (h4 : a.children_ids = b.children_ids) : a = b := by
  cases a with
  | mk a1 a2 a3 a4 =>
    cases b with
    | mk b1 b2 b3 b4 =>
      have e1 : a1 = b1 := h1
      have e2 : a2 = b2 := h2
      have e3 : a3 = b3 := h3
      have e4 : a4 = b4 := h4
      rw [e1, e2, e3, e4]

theorem attachResult_span (K : List SpanId) (cs : List SpanNode) (k : SpanId)
    (n : SpanNode) : (attachResult K cs k n).span = n.span := rfl

theorem attachResult_ctx (K : List SpanId) (cs : List SpanNode) (k : SpanId)
    (n : SpanNode) : (attachResult K cs k n).ctx = n.ctx := rfl

theorem attachResult_parent (K : List SpanId) (cs : List SpanNode) (k : SpanId)
    (n : SpanNode) : (attachResult K cs k n).parent = parentUpd K cs k n.parent := rfl

theorem attachResult_children (K : List SpanId) (cs : List SpanNode) (k : SpanId)
    (n : SpanNode) :
    (attachResult K cs k n).children_ids = n.children_ids ++ childrenOf K cs k := rfl

/-- The child-append half of one `attachStep`, on the entry keyed `k`. -/
def stepAdd (q cid k : SpanId) (n : SpanNode) : SpanNode :=
  if k = q then
    { n with children_ids :=
        if cid ∈ n.children_ids then n.children_ids else n.children_ids ++ [cid] }
  else n

/-- The value-level effect of one `attachStep` on the entry keyed `k` when
the stepping node `c = cid` has resolved parent `q`: append `cid` to the
children of the entry keyed `q`, then set the parent of the entry keyed
`cid`. -/
def stepVal (q cid : SpanId) (k : SpanId) (n : SpanNode) : SpanNode :=
  if k = cid then { stepAdd q cid k n with parent := some q } else stepAdd q cid k n

theorem stepAdd_span (q cid k : SpanId) (n : SpanNode) : (stepAdd q cid k n).span = n.span := by
  unfold stepAdd
  by_cases h : k = q
  · rw [if_pos h]
  · rw [if_neg h]

theorem stepAdd_ctx (q cid k : SpanId) (n : SpanNode) : (stepAdd q cid k n).ctx = n.ctx := by
  unfold stepAdd
  by_cases h : k = q
  · rw [if_pos h]
  · rw [if_neg h]

theorem stepAdd_parent (q cid k : SpanId) (n : SpanNode) :
    (stepAdd q cid k n).parent = n.parent := by
  unfold stepAdd
  by_cases h : k = q
  · rw [if_pos h]
  · rw [if_neg h]

theorem stepAdd_children (q cid k : SpanId) (n : SpanNode) :
    (stepAdd q cid k n).children_ids =
      if k = q then
        (if cid ∈ n.children_ids then n.children_ids else n.children_ids ++ [cid])
      else n.children_ids := by
  unfold stepAdd
  by_cases h : k = q
  · rw [if_pos h, if_pos h]
  · rw [if_neg h, if_neg h]

theorem stepVal_span (q cid k : SpanId) (n : SpanNode) : (stepVal q cid k n).span = n.span := by
  unfold stepVal
  by_cases h : k = cid
  · rw [if_pos h]
    exact stepAdd_span q cid k n
  · rw [if_neg h]
    exact stepAdd_span q cid k n

theorem stepVal_ctx (q cid k : SpanId) (n : SpanNode) : (stepVal q cid k n).ctx = n.ctx := by
  unfold stepVal
  by_cases h : k = cid
  · rw [if_pos h]
    exact stepAdd_ctx q cid k n
  · rw [if_neg h]
    exact stepAdd_ctx q cid k n

theorem stepVal_parent (q cid k : SpanId) (n : SpanNode) :
    (stepVal q cid k n).parent = if k = cid then some q else n.parent := by
  unfold stepVal
  by_cases h : k = cid
  · rw [if_pos h, if_pos h]
  · rw [if_neg h, if_neg h]
    exact stepAdd_parent q cid k n

theorem stepVal_children (q cid k : SpanId) (n : SpanNode) :
    (stepVal q cid k n).children_ids = (stepAdd q cid k n).children_ids := by
  unfold stepVal
  by_cases h : k = cid
  · rw [if_pos h]
  · rw [if_neg h]

theorem stepVal_children_mem (q cid k : SpanId) (n : SpanNode) (x : SpanId)
    (hx : x ∈ (stepVal q cid k n).children_ids) :
    x ∈ n.children_ids ∨ x = cid := by
  rw [stepVal_children, stepAdd_children] at hx
  by_cases h1 : k = q
  · rw [if_pos h1] at hx
    by_cases h3 : cid ∈ n.children_ids
    · rw [if_pos h3] at hx
      exact Or.inl hx
    · rw [if_neg h3] at hx
      rcases List.mem_append.mp hx with h | h
      · exact Or.inl h
      · exact Or.inr (by simpa using h)
  · rw [if_neg h1] at hx
    exact Or.inl hx

theorem attachResult_cons (K : List SpanId) (cs : List SpanNode) (c : SpanNode)
    (q : SpanId) (hpt : parentTarget K c = some q)
    (hfind : cs.find? (fun d => decide (d.span_id = c.span_id)) = none)
    (k : SpanId) (n : SpanNode) (hnotin : c.span_id ∉ n.children_ids) :
    attachResult K cs k (stepVal q c.span_id k n) = attachResult K (c :: cs) k n := by
  apply SpanNode.ext_fields
  · rw [attachResult_span, attachResult_span, stepVal_span]
  · rw [attachResult_ctx, attachResult_ctx, stepVal_ctx]
  · rw [attachResult_parent, attachResult_parent, stepVal_parent]
    by_cases h2 : k = c.span_id
    · rw [if_pos h2, parentUpd_cons_pos K cs n.parent h2.symm, hpt]
      have hfind2 : cs.find? (fun d => decide (d.span_id = k)) = none := by
        rw [h2]
        exact hfind
      rw [parentUpd_of_find_none K (some q) hfind2]
    · rw [if_neg h2, parentUpd_cons_neg K cs n.parent (fun hc => h2 hc.symm)]
  · rw [attachResult_children, attachResult_children, stepVal_children, stepAdd_children]
    by_cases h1 : k = q
    · rw [if_pos h1, if_neg hnotin,
        childrenOf_cons_pos cs (by rw [hpt, h1]), List.append_assoc]
      rfl
    · rw [if_neg h1,
        childrenOf_cons_neg cs (by
          rw [hpt]
          exact fun hc => h1 (Option.some.inj hc).symm)]

/-- The master lemma: the whole attachment loop, started on a table whose
children lists do not yet contain any of the ids about to be attached (in
`_rebuild_tree` all nodes are fresh), equals the entrywise closed form. -/
theorem attach_foldl (cs : List SpanNode) :
    ∀ (m : NodeMap),
      ((cs.map SpanNode.span_id).Nodup) →
      (∀ c ∈ cs, ∀ p ∈ m, c.span_id ∉ (p.2 : SpanNode).children_ids) →
      cs.foldl attachStep m =
        m.map (fun p => (p.1, attachResult (m.map Prod.fst) cs p.1 p.2)) := by
  induction cs with
  | nil =>
    intro m _ _
    rw [List.foldl_nil]
    have hpt : ∀ p ∈ m, ((fun p => (p.1, attachResult (m.map Prod.fst) [] p.1 p.2)) p)
        = id p := by
      intro p _
      show (p.1, attachResult (m.map Prod.fst) [] p.1 p.2) = p
      rw [attachResult_nil]
    rw [List.map_congr_left hpt, List.map_id]
  | cons c cs ih =>
    intro m hnd hch
    rw [List.foldl_cons]
    rw [List.map_cons] at hnd
    have hndc := List.nodup_cons.mp hnd
    have hfind : cs.find? (fun d => decide (d.span_id = c.span_id)) = none := by
      rw [List.find?_eq_none]
      intro d hd
      simp only [decide_eq_true_eq]
      intro hcontra
      exact hndc.1 (hcontra ▸ List.mem_map_of_mem SpanNode.span_id hd)
    cases hpt : parentTarget (m.map Prod.fst) c with
    | none =>
      rw [attachStep_of_target_none hpt]
      rw [ih m hndc.2 (fun d hd => hch d (List.mem_cons_of_mem _ hd))]
      apply List.map_congr_left
      intro p _
      have hcf : childrenOf (m.map Prod.fst) (c :: cs) p.1
          = childrenOf (m.map Prod.fst) cs p.1 :=
        childrenOf_cons_neg cs (by rw [hpt]; simp)
      have hpf : parentUpd (m.map Prod.fst) (c :: cs) p.1 p.2.parent
          = parentUpd (m.map Prod.fst) cs p.1 p.2.parent := by
        by_cases hid : c.span_id = p.1
        · rw [parentUpd_cons_pos _ cs _ hid, hpt]
          have hfind2 : cs.find? (fun d => decide (d.span_id = p.1)) = none := by
            rw [← hid]
            exact hfind
          rw [parentUpd_of_find_none _ _ hfind2]
        · rw [parentUpd_cons_neg _ cs _ hid]
      unfold attachResult
      rw [hcf, hpf]
    | some q =>
      rw [attachStep_of_target_some hpt]
      have hstep : setParentOf (addChildTo m q c.span_id) c.span_id q
          = m.map (fun p => (p.1, stepVal q c.span_id p.1 p.2)) := by
        unfold setParentOf addChildTo modifyA
        rw [List.map_map]
        apply List.map_congr_left
        intro p _
        show ((fun r : SpanId × SpanNode => if r.1 = c.span_id then
              (r.1, { r.2 with parent := some q }) else r)
            ((fun r : SpanId × SpanNode => if r.1 = q then
              (r.1, { r.2 with children_ids := if c.span_id ∈ r.2.children_ids
                  then r.2.children_ids else r.2.children_ids ++ [c.span_id] }) else r) p))
          = (p.1, stepVal q c.span_id p.1 p.2)
        have hinner : ((fun r : SpanId × SpanNode => if r.1 = q then
            (r.1, { r.2 with children_ids := if c.span_id ∈ r.2.children_ids
                then r.2.children_ids else r.2.children_ids ++ [c.span_id] }) else r) p)
            = (p.1, stepAdd q c.span_id p.1 p.2) := by
          show (if p.1 = q then
              (p.1, { p.2 with children_ids := if c.span_id ∈ (p.2 : SpanNode).children_ids
                  then (p.2 : SpanNode).children_ids
                  else (p.2 : SpanNode).children_ids ++ [c.span_id] }) else p)
            = (p.1, stepAdd q c.span_id p.1 p.2)
          by_cases h1 : p.1 = q
          · rw [if_pos h1]
            unfold stepAdd
            rw [if_pos h1]
          · rw [if_neg h1]
            unfold stepAdd
            rw [if_neg h1]
        rw [hinner]
        show (if p.1 = c.span_id then
            (p.1, { stepAdd q c.span_id p.1 p.2 with parent := some q })
          else (p.1, stepAdd q c.span_id p.1 p.2))
          = (p.1, stepVal q c.span_id p.1 p.2)
        by_cases h2 : p.1 = c.span_id
        · rw [if_pos h2]
          unfold stepVal
          rw [if_pos h2]
        · rw [if_neg h2]
          unfold stepVal
          rw [if_neg h2]
      rw [hstep]
      have hkeys : (m.map (fun p => (p.1, stepVal q c.span_id p.1 p.2))).map Prod.fst
          = m.map Prod.fst := by
        rw [List.map_map]
        rfl
      have hch' : ∀ d ∈ cs, ∀ p ∈ (m.map (fun p => (p.1, stepVal q c.span_id p.1 p.2))),
          d.span_id ∉ (p.2 : SpanNode).children_ids := by
        intro d hd p hp
        obtain ⟨p0, hp0, hodef⟩ := List.mem_map.mp hp
        have hdm := hch d (List.mem_cons_of_mem _ hd) p0 hp0
        have hdc : d.span_id ≠ c.span_id := by
          intro hcontra
          exact hndc.1 (hcontra ▸ List.mem_map_of_mem SpanNode.span_id hd)
        subst hodef
        intro hmem
        rcases stepVal_children_mem q c.span_id p0.1 p0.2 d.span_id hmem with h | h
        · exact hdm h
        · exact hdc h
      rw [ih _ hndc.2 hch', hkeys, List.map_map]
      apply List.map_congr_left
      intro p hp
      show (p.1, attachResult (m.map Prod.fst) cs p.1 (stepVal q c.span_id p.1 p.2))
          = (p.1, attachResult (m.map Prod.fst) (c :: cs) p.1 p.2)
      have hnotin : c.span_id ∉ (p.2 : SpanNode).children_ids :=
        hch c (List.mem_cons_self _ _) p hp
      rw [attachResult_cons (m.map Prod.fst) cs c q hpt hfind p.1 p.2 hnotin]

/-! ## Lemmas: sort-key order and stability -/

theorem keyLE_refl (a : Option Nat) : keyLE a a = true := by
  cases a <;> simp [keyLE]

theorem keyLE_trans : ∀ a b c : Option Nat, keyLE a b = true → keyLE b c = true →
    keyLE a c = true := by
  intro a b c hab hbc
  cases a <;> cases b <;> cases c <;> simp [keyLE] at hab hbc ⊢ <;> omega

theorem keyLE_total : ∀ a b : Option Nat, keyLE a b || keyLE b a := by
  intro a b
  cases a <;> cases b <;> simp [keyLE] <;> omega

theorem spanLE_trans : ∀ a b c : ReadableSpan, spanLE a b = true → spanLE b c = true →
    spanLE a c = true :=
  fun _ _ _ hab hbc => keyLE_trans _ _ _ hab hbc

theorem spanLE_total : ∀ a b : ReadableSpan, spanLE a b || spanLE b a :=
  fun a b => keyLE_total _ _

theorem nodeLE_trans : ∀ a b c : SpanNode, nodeLE a b = true → nodeLE b c = true →
    nodeLE a c = true :=
  fun _ _ _ hab hbc => keyLE_trans _ _ _ hab hbc

theorem nodeLE_total : ∀ a b : SpanNode, nodeLE a b || nodeLE b a :=
  fun a b => keyLE_total _ _

/-- Stability of `mergeSort` in filter form: the elements of any single key
class come out in exactly their input order. -/
theorem filter_mergeSort_stable {α : Type} (le : α → α → Bool)
    (htrans : ∀ a b c, le a b = true → le b c = true → le a c = true)
    (htotal : ∀ a b, le a b || le b a)
    (p : α → Bool) (hp : ∀ a b, p a = true → p b = true → le a b = true)
    (l : List α) : (l.mergeSort le).filter p = l.filter p := by
  have hperm : List.Perm ((l.mergeSort le).filter p) (l.filter p) := (List.mergeSort_perm l le).filter p
  have hpw : (l.filter p).Pairwise (fun a b => le a b = true) :=
    List.pairwise_of_forall_mem_list (fun a ha b hb =>
      hp a b (List.of_mem_filter ha) (List.of_mem_filter hb))
  have hsub : List.Sublist (l.filter p) (l.mergeSort le) :=
    List.sublist_mergeSort htrans htotal hpw (List.filter_sublist l)
  have hsub2 : List.Sublist (l.filter p) ((l.mergeSort le).filter p) := by
    have hself : (l.filter p).filter p = l.filter p :=
      List.filter_eq_self.mpr (fun a ha => List.of_mem_filter ha)
    have := hsub.filter p
    rwa [hself] at this
  exact (hsub2.eq_of_length hperm.symm.length_eq).symm

/-! ## Lemmas: the built tree in closed form -/

/-- Invariant of the node table after the creation loop: keys are unique,
every entry is keyed by its node's span id, and every node is fresh (no
parent pointer, no children). -/
def NodeMapWF (m : NodeMap) : Prop :=
  (m.map Prod.fst).Nodup ∧
  ∀ p ∈ m, (p.2 : SpanNode).span_id = p.1 ∧ p.2.parent = none ∧ p.2.children_ids = []

theorem ofSpan_fields {s : ReadableSpan} {n : SpanNode} (h : SpanNode.ofSpan s = some n) :
    n.span = s ∧ n.parent = none ∧ n.children_ids = [] ∧ s.context = some n.ctx := by
  unfold SpanNode.ofSpan at h
  cases hc : s.context with
  | none => rw [hc] at h; simp at h
  | some c =>
    rw [hc] at h
    simp only [Option.some.injEq] at h
    subst h
    exact ⟨rfl, rfl, rfl, rfl⟩

theorem nodeMapWF_insertA {m : NodeMap} (h : NodeMapWF m) {n : SpanNode}
    (hn : n.parent = none ∧ n.children_ids = []) :
    NodeMapWF (insertA m n.span_id n) := by
  constructor
  · rw [keys_insertA]
    by_cases hk : hasKeyA m n.span_id
    · rw [if_pos hk]
      exact h.1
    · rw [if_neg hk]
      have hnm : n.span_id ∉ m.map Prod.fst := by
        rw [← hasKeyA_iff_mem]
        simpa using hk
      simp [List.nodup_append, h.1, hnm]
  · intro p hp
    unfold insertA at hp
    by_cases hk : hasKeyA m n.span_id
    · rw [if_pos hk] at hp
      obtain ⟨p0, hp0, hdef⟩ := List.mem_map.mp hp
      by_cases hp01 : p0.1 = n.span_id
      · rw [if_pos hp01] at hdef
        rw [← hdef]
        exact ⟨rfl, hn.1, hn.2⟩
      · rw [if_neg hp01] at hdef
        rw [← hdef]
        exact h.2 p0 hp0
    · rw [if_neg hk] at hp
      rcases List.mem_append.mp hp with h1 | h1
      · exact h.2 p h1
      · have hpd : p = (n.span_id, n) := by simpa using h1
        rw [hpd]
        exact ⟨rfl, hn.1, hn.2⟩

theorem addNodes_WF (spans : List ReadableSpan) :
    ∀ m m', NodeMapWF m → addNodes m spans = some m' → NodeMapWF m' := by
  induction spans with
  | nil =>
    intro m m' h heq
    simp [addNodes] at heq
    rw [← heq]
    exact h
  | cons s rest ih =>
    intro m m' h heq
    cases hos : SpanNode.ofSpan s with
    | none => rw [addNodes, hos] at heq; simp at heq
    | some n =>
      rw [addNodes, hos] at heq
      have heq' : addNodes (insertA m n.span_id n) rest = some m' := heq
      have hf := ofSpan_fields hos
      exact ih _ _ (nodeMapWF_insertA h ⟨hf.2.1, hf.2.2.1⟩) heq'

theorem nodeMapWF_nil : NodeMapWF [] := ⟨List.nodup_nil, fun p hp => by simp at hp⟩

theorem WF_values_ids {m : NodeMap} (hwf : NodeMapWF m) :
    (m.map Prod.snd).map SpanNode.span_id = m.map Prod.fst := by
  rw [List.map_map]
  apply List.map_congr_left
  intro p hp
  exact (hwf.2 p hp).1

/-- `_rebuild_tree`, first component, in closed form: the rebuilt table is
the stable-sorted node list, re-keyed, with every entry's children and
parent fields given by `attachResult`. -/
theorem rebuildTree_fst {m0 : NodeMap} (hwf : NodeMapWF m0) :
    (rebuildTree m0).1
      = ((m0.map Prod.snd).mergeSort nodeLE).map
          (fun n => (n.span_id,
            attachResult (((m0.map Prod.snd).mergeSort nodeLE).map SpanNode.span_id)
              ((m0.map Prod.snd).mergeSort nodeLE) n.span_id n)) := by
  have hperm : List.Perm ((m0.map Prod.snd).mergeSort nodeLE) (m0.map Prod.snd) :=
    List.mergeSort_perm _ _
  have hidnd : (((m0.map Prod.snd).mergeSort nodeLE).map SpanNode.span_id).Nodup := by
    rw [(hperm.map SpanNode.span_id).nodup_iff, WF_values_ids hwf]
    exact hwf.1
  have hfresh : ∀ c ∈ (m0.map Prod.snd).mergeSort nodeLE,
      ∀ p ∈ ((m0.map Prod.snd).mergeSort nodeLE).map (fun n => (n.span_id, n)),
      c.span_id ∉ (p.2 : SpanNode).children_ids := by
    intro c _ p hp
    obtain ⟨n0, hn0, hdef⟩ := List.mem_map.mp hp
    have hn0' : n0 ∈ m0.map Prod.snd := hperm.mem_iff.mp hn0
    obtain ⟨p0, hp0, hdef0⟩ := List.mem_map.mp hn0'
    have hch : n0.children_ids = [] := by
      rw [← hdef0]
      exact (hwf.2 p0 hp0).2.2
    rw [← hdef]
    simp [hch]
  have hmain := attach_foldl ((m0.map Prod.snd).mergeSort nodeLE)
    (((m0.map Prod.snd).mergeSort nodeLE).map (fun n => (n.span_id, n)))
    hidnd hfresh
  have hkeys : (((m0.map Prod.snd).mergeSort nodeLE).map
      (fun n => (n.span_id, n))).map Prod.fst
      = ((m0.map Prod.snd).mergeSort nodeLE).map SpanNode.span_id := by
    rw [List.map_map]
    rfl
  show ((m0.map Prod.snd).mergeSort nodeLE).foldl attachStep
      (((m0.map Prod.snd).mergeSort nodeLE).map (fun n => (n.span_id, n))) = _
  rw [hmain, hkeys, List.map_map]
  rfl

/-- `_rebuild_tree`, second component: definitional unfolding of the root
collection loop over the rebuilt table. -/
theorem rebuildTree_snd (m0 : NodeMap) :
    (rebuildTree m0).2
      = (((rebuildTree m0).1.map Prod.snd).filter
          (fun n => isRootNode (rebuildTree m0).1 n)).map SpanNode.span_id := rfl

theorem build_eq (spans : List ReadableSpan) (m0 : NodeMap)
    (h0 : addNodes [] spans = some m0) :
    SpanTree.build spans = some ⟨(rebuildTree m0).1, (rebuildTree m0).2⟩ := by
  unfold SpanTree.build
  rw [h0]

/-! ## Facts about the built tree -/

/-- The canonical (sorted) node order of `_rebuild_tree`. -/
def sortedNodes (m0 : NodeMap) : List SpanNode := (m0.map Prod.snd).mergeSort nodeLE

/-- The canonical key order of the rebuilt table. -/
def sortedKeys (m0 : NodeMap) : List SpanId := (sortedNodes m0).map SpanNode.span_id

theorem rebuildTree_fst_sorted {m0 : NodeMap} (hwf : NodeMapWF m0) :
    (rebuildTree m0).1
      = (sortedNodes m0).map
          (fun n => (n.span_id, attachResult (sortedKeys m0) (sortedNodes m0) n.span_id n)) :=
  rebuildTree_fst hwf

theorem sortedNodes_perm (m0 : NodeMap) :
    List.Perm (sortedNodes m0) (m0.map Prod.snd) := List.mergeSort_perm _ _

theorem sortedKeys_nodup {m0 : NodeMap} (hwf : NodeMapWF m0) : (sortedKeys m0).Nodup := by
  unfold sortedKeys
  rw [((sortedNodes_perm m0).map SpanNode.span_id).nodup_iff, WF_values_ids hwf]
  exact hwf.1

theorem sortedNodes_fresh {m0 : NodeMap} (hwf : NodeMapWF m0) {n : SpanNode}
    (hn : n ∈ sortedNodes m0) : n.parent = none ∧ n.children_ids = [] := by
  have hn' : n ∈ m0.map Prod.snd := (sortedNodes_perm m0).mem_iff.mp hn
  obtain ⟨p0, hp0, hdef⟩ := List.mem_map.mp hn'
  rw [← hdef]
  exact ⟨(hwf.2 p0 hp0).2.1, (hwf.2 p0 hp0).2.2⟩

theorem rebuild_keys {m0 : NodeMap} (hwf : NodeMapWF m0) :
    ((rebuildTree m0).1).map Prod.fst = sortedKeys m0 := by
  rw [rebuildTree_fst_sorted hwf, List.map_map]
  rfl

theorem rebuild_lookup {m0 : NodeMap} (hwf : NodeMapWF m0) (k : SpanId) :
    lookupA (rebuildTree m0).1 k
      = (lookupA ((sortedNodes m0).map (fun n => (n.span_id, n))) k).map
          (fun n => attachResult (sortedKeys m0) (sortedNodes m0) k n) := by
  rw [rebuildTree_fst_sorted hwf]
  have hshape : (sortedNodes m0).map
      (fun n => (n.span_id, attachResult (sortedKeys m0) (sortedNodes m0) n.span_id n))
      = ((sortedNodes m0).map (fun n => (n.span_id, n))).map
          (fun p => (p.1, attachResult (sortedKeys m0) (sortedNodes m0) p.1 p.2)) := by
    rw [List.map_map]
    rfl
  rw [hshape, lookupA_mapVal]

theorem sorted_pairs_keys (m0 : NodeMap) :
    ((sortedNodes m0).map (fun n => (n.span_id, n))).map Prod.fst = sortedKeys m0 := by
  rw [List.map_map]
  rfl

theorem sorted_pairs_lookup {m0 : NodeMap} (hwf : NodeMapWF m0) {n : SpanNode}
    (hn : n ∈ sortedNodes m0) :
    lookupA ((sortedNodes m0).map (fun n => (n.span_id, n))) n.span_id = some n := by
  apply mem_lookupA
  · rw [sorted_pairs_keys]
    exact sortedKeys_nodup hwf
  · exact List.mem_map_of_mem _ hn

/-- Membership in a rebuilt entry's children list. -/
theorem childrenOf_mem_iff (K : List SpanId) (cs : List SpanNode) (k cid : SpanId) :
    cid ∈ childrenOf K cs k ↔ ∃ c ∈ cs, parentTarget K c = some k ∧ c.span_id = cid := by
  unfold childrenOf
  constructor
  · intro h
    obtain ⟨c, hc, hdef⟩ := List.mem_map.mp h
    exact ⟨c, List.mem_of_mem_filter hc, by simpa using List.of_mem_filter hc, hdef⟩
  · rintro ⟨c, hc, hpt, hid⟩
    exact List.mem_map.mpr ⟨c, List.mem_filter.mpr ⟨hc, by simpa using hpt⟩, hid⟩

/-- Each entry of the rebuilt table, in terms of the closed-form fields. -/
theorem rebuild_entry {m0 : NodeMap} (hwf : NodeMapWF m0) {p : SpanId × SpanNode}
    (hp : p ∈ (rebuildTree m0).1) :
    ∃ n ∈ sortedNodes m0, n.span_id = p.1
      ∧ (p.2 : SpanNode).span = n.span
      ∧ (p.2 : SpanNode).ctx = n.ctx
      ∧ (p.2 : SpanNode).children_ids = childrenOf (sortedKeys m0) (sortedNodes m0) p.1
      ∧ (p.2 : SpanNode).parent = parentUpd (sortedKeys m0) (sortedNodes m0) p.1 none := by
  rw [rebuildTree_fst_sorted hwf] at hp
  obtain ⟨n, hn, hdef⟩ := List.mem_map.mp hp
  refine ⟨n, hn, ?_, ?_, ?_, ?_, ?_⟩ <;> rw [← hdef]
  · show (attachResult (sortedKeys m0) (sortedNodes m0) n.span_id n).span = n.span
    rw [attachResult_span]
  · show (attachResult (sortedKeys m0) (sortedNodes m0) n.span_id n).ctx = n.ctx
    rw [attachResult_ctx]
  · show (attachResult (sortedKeys m0) (sortedNodes m0) n.span_id n).children_ids
      = childrenOf (sortedKeys m0) (sortedNodes m0) n.span_id
    rw [attachResult_children, (sortedNodes_fresh hwf hn).2]
    rfl
  · show (attachResult (sortedKeys m0) (sortedNodes m0) n.span_id n).parent
      = parentUpd (sortedKeys m0) (sortedNodes m0) n.span_id none
    rw [attachResult_parent, (sortedNodes_fresh hwf hn).1]

/-- The root list, via the root test on each table entry. -/
theorem rebuild_roots_mem {m0 : NodeMap} (hwf : NodeMapWF m0) (k : SpanId) :
    k ∈ (rebuildTree m0).2
      ↔ ∃ v ∈ ((rebuildTree m0).1).map Prod.snd,
          isRootNode (rebuildTree m0).1 v = true ∧ (v : SpanNode).span_id = k := by
  rw [rebuildTree_snd]
  constructor
  · intro h
    obtain ⟨v, hv, hdef⟩ := List.mem_map.mp h
    exact ⟨v, List.mem_of_mem_filter hv, List.of_mem_filter hv, hdef⟩
  · rintro ⟨v, hv, hroot, hid⟩
    exact List.mem_map.mpr ⟨v, List.mem_filter.mpr ⟨hv, hroot⟩, hid⟩

/-- The root test in terms of `parentTarget`. -/
theorem isRootNode_iff_target {m0 : NodeMap} (hwf : NodeMapWF m0) (v : SpanNode) :
    isRootNode (rebuildTree m0).1 v = true
      ↔ parentTarget (sortedKeys m0) v = none := by
  unfold isRootNode parentTarget
  cases hpc : v.parent_context with
  | none => simp
  | some pctx =>
    show (!hasKeyA (rebuildTree m0).1 pctx.span_id) = true
      ↔ (if pctx.span_id ∈ sortedKeys m0 then some pctx.span_id else none) = none
    rw [Bool.not_eq_true']
    by_cases hmem : pctx.span_id ∈ sortedKeys m0
    · rw [if_pos hmem]
      have : hasKeyA (rebuildTree m0).1 pctx.span_id = true := by
        rw [hasKeyA_iff_mem, rebuild_keys hwf]
        exact hmem
      rw [this]
      simp
    · rw [if_neg hmem]
      have : ¬ (hasKeyA (rebuildTree m0).1 pctx.span_id = true) := by
        rw [hasKeyA_iff_mem, rebuild_keys hwf]
        exact hmem
      simp [this]

/-- In a rebuilt table, values are keyed by their own span id, so root
membership of an entry's key is the root test on its value. -/
theorem rebuild_root_entry {m0 : NodeMap} (hwf : NodeMapWF m0) {p : SpanId × SpanNode}
    (hp : p ∈ (rebuildTree m0).1) :
    p.1 ∈ (rebuildTree m0).2 ↔ parentTarget (sortedKeys m0) p.2 = none := by
  obtain ⟨n, hn, hid, hspan, hctx, hch, hpar⟩ := rebuild_entry hwf hp
  rw [rebuild_roots_mem hwf]
  constructor
  · rintro ⟨v, hv, hroot, hvid⟩
    -- v and p.2 are both table values with span id p.1; keys are unique
    obtain ⟨pv, hpv, hvdef⟩ := List.mem_map.mp hv
    have hkeysnd : ((rebuildTree m0).1.map Prod.fst).Nodup := by
      rw [rebuild_keys hwf]
      exact sortedKeys_nodup hwf
    have hvk : pv.1 = p.1 := by
      obtain ⟨n2, hn2, hid2, hspan2, hctx2, _, _⟩ := rebuild_entry hwf hpv
      have : (pv.2 : SpanNode).span_id = pv.1 := by
        unfold SpanNode.span_id
        rw [hctx2]
        exact hid2
      rw [← this, hvdef, hvid]
    have : pv = p := by
      have h1 := mem_lookupA hkeysnd hpv
      have h2 := mem_lookupA hkeysnd hp
      rw [hvk] at h1
      rw [h1, Option.some.injEq] at h2
      rw [Prod.ext_iff]
      exact ⟨hvk, h2⟩
    rw [← isRootNode_iff_target hwf]
    rw [← hvdef, this] at hroot
    exact hroot
  · intro htgt
    refine ⟨p.2, List.mem_map_of_mem Prod.snd hp, ?_, ?_⟩
    · rw [isRootNode_iff_target hwf]
      exact htgt
    · unfold SpanNode.span_id
      rw [hctx]
      exact hid

/-! ## Claim theorems -/

/-- Totality of tree construction for context-carrying records (helper
shared by several witnesses). -/
theorem build_isSome (spans : List ReadableSpan)
    (h : ∀ s ∈ spans, (s.context).isSome = true) :
    (SpanTree.build spans).isSome = true := by
  unfold SpanTree.build
  cases h0 : addNodes [] spans with
  | none =>
    have htot := addNodes_isSome spans [] h
    rw [h0] at htot
    simp at htot
  | some m => simp

theorem any_map_eq {α β : Type} (f : α → β) (p : β → Bool) (l : List α) :
    (l.map f).any p = l.any (fun a => p (f a)) := by
  induction l with
  | nil => rfl
  | cons x xs ih => simp [List.any_cons, ih]

/-- With contexts present and distinct span ids, the node values after the
creation loop wrap exactly the input records, so the sort raises on the
table iff the input mixes absent and present start times. -/
theorem mixed_values {spans : List ReadableSpan} {m0 : NodeMap}
    (hctx : ∀ s ∈ spans, (s.context).isSome = true)
    (hnd : (spanIds spans).Nodup)
    (h0 : addNodes [] spans = some m0) :
    mixedStartTimes (m0.map Prod.snd) = mixedStarts spans := by
  have hm0 : m0 = spans.filterMap freshEntry := by
    have hap := addNodes_eq_append spans [] hctx hnd
      (fun k _ => by simp [hasKeyA, lookupA])
    rw [h0] at hap
    have := Option.some.inj hap
    rw [List.nil_append] at this
    exact this
  have hvals : (m0.map Prod.snd).map SpanNode.span = spans := by
    rw [hm0]
    have := filterMap_freshEntry_spans spans hctx
    rw [List.map_map]
    exact this
  unfold mixedStartTimes mixedStarts
  rw [← hvals]
  simp [any_map_eq, List.map_map, Function.comp]

theorem rebuildTreePy_mixed {m : NodeMap}
    (h : mixedStartTimes (m.map Prod.snd) = true) :
    rebuildTreePy m = none := by
  unfold rebuildTreePy pySortNodes
  rw [h]
  simp

theorem rebuildTreePy_not_mixed {m : NodeMap}
    (h : mixedStartTimes (m.map Prod.snd) = false) :
    rebuildTreePy m = some (attachPhase (pySortedNodes m)) := by
  unfold rebuildTreePy pySortNodes pySortedNodes
  rw [h]
  simp

/-- The successful faithful build, in closed form. -/
theorem buildPy_eq {spans : List ReadableSpan} {m0 : NodeMap}
    (h0 : addNodes [] spans = some m0)
    (hmix : mixedStartTimes (m0.map Prod.snd) = false) :
    SpanTree.buildPy spans
      = some ⟨(attachPhase (pySortedNodes m0)).1, (attachPhase (pySortedNodes m0)).2⟩ := by
  unfold SpanTree.buildPy
  rw [h0]
  show (match rebuildTreePy m0 with
    | none => none
    | some r => some (⟨r.1, r.2⟩ : SpanTree)) = _
  rw [rebuildTreePy_not_mixed hmix]

/-- The faithful build raises on a batch mixing absent and present start
times. -/
theorem buildPy_none_of_mixed (spans : List ReadableSpan)
    (hctx : ∀ s ∈ spans, (s.context).isSome = true)
    (hnd : (spanIds spans).Nodup)
    (h : mixedStarts spans = true) :
    SpanTree.buildPy spans = none := by
  cases h0 : addNodes [] spans with
  | none =>
    unfold SpanTree.buildPy
    rw [h0]
  | some m0 =>
    have hmixv : mixedStartTimes (m0.map Prod.snd) = true := by
      rw [mixed_values hctx hnd h0]
      exact h
    unfold SpanTree.buildPy
    rw [h0]
    show (match rebuildTreePy m0 with
      | none => none
      | some r => some (⟨r.1, r.2⟩ : SpanTree)) = none
    rw [rebuildTreePy_mixed hmixv]

/-- The faithful build succeeds on an unmixed batch of context-carrying
records. -/
theorem buildPy_isSome (spans : List ReadableSpan)
    (hctx : ∀ s ∈ spans, (s.context).isSome = true)
    (hnd : (spanIds spans).Nodup)
    (hmix : mixedStarts spans = false) :
    (SpanTree.buildPy spans).isSome = true := by
  cases h0 : addNodes [] spans with
  | none =>
    have htot := addNodes_isSome spans [] hctx
    rw [h0] at htot
    simp at htot
  | some m0 =>
    have hmixv : mixedStartTimes (m0.map Prod.snd) = false := by
      rw [mixed_values hctx hnd h0]
      exact hmix
    rw [buildPy_eq h0 hmixv]
    rfl

/-- C1: the claim says constructing a `SpanTree` completes without raising
for every mix of missing parents, missing timestamps and duplicate span
ids.  This is FALSE of the program: `_rebuild_tree` sorts by
`node.start_timestamp or datetime.min`, and Python raises `TypeError`
when it orders the timezone-naive `datetime.min` (a record with no
`start_time`) against a timezone-aware start timestamp — which sorting
any batch containing both kinds must do.  Faithfully embedded: for
records carrying contexts, with distinct span ids, construction fails
exactly when the batch mixes absent and present `start_time`, and
succeeds otherwise. -/
theorem C1_raises_iff_mixed (spans : List ReadableSpan)
    (hctx : ∀ s ∈ spans, (s.context).isSome = true)
    (hnd : (spanIds spans).Nodup) :
    SpanTree.buildPy spans = none ↔ mixedStarts spans = true := by
  constructor
  · intro h
    cases hmx : mixedStarts spans with
    | true => rfl
    | false =>
      have := buildPy_isSome spans hctx hnd hmx
      rw [h] at this
      simp at this
  · exact buildPy_none_of_mixed spans hctx hnd

def c1Mixed1 : ReadableSpan := ⟨"nostamp", some ⟨1, 1⟩, none, none, none, []⟩
def c1Mixed2 : ReadableSpan := ⟨"stamped", some ⟨1, 2⟩, none, some 5, some 9, []⟩

/-- Witness for C1 at the concrete failing input: one record without a
start timestamp next to one with a start timestamp makes construction
raise. -/
theorem C1_witness : SpanTree.buildPy [c1Mixed1, c1Mixed2] = none :=
  (C1_raises_iff_mixed [c1Mixed1, c1Mixed2] (by decide) (by decide)).mpr (by decide)

/-- C10: Constructing a `SpanNode` from a span whose context is `None`
fails the constructor's assertion (modelled as `none`) instead of
producing a node; for every span with a context, construction succeeds and
yields a node wrapping that span with no parent and no children. -/
theorem C10_ofSpan (s : ReadableSpan) :
    (s.context = none → SpanNode.ofSpan s = none)
    ∧ (∀ c, s.context = some c →
        SpanNode.ofSpan s = some ⟨s, c, none, []⟩) := by
  constructor
  · intro h
    unfold SpanNode.ofSpan
    rw [h]
  · intro c h
    exact ofSpan_of_context h

def c10NoCtx : ReadableSpan := ⟨"x", none, none, some 1, some 2, []⟩
def c10Ctx : ReadableSpan := ⟨"y", some ⟨3, 4⟩, none, some 1, some 2, []⟩

/-- Witness for C10 at two concrete spans: one with no context (assertion
fires) and one with a context (fresh parentless, childless node). -/
theorem C10_witness :
    SpanNode.ofSpan c10NoCtx = none
    ∧ SpanNode.ofSpan c10Ctx = some ⟨c10Ctx, ⟨3, 4⟩, none, []⟩ :=
  ⟨(C10_ofSpan c10NoCtx).1 rfl, (C10_ofSpan c10Ctx).2 ⟨3, 4⟩ rfl⟩

theorem matchLoop_iff (sattrs : List (String × AttrValue)) (l : List (String × AttrValue)) :
    matchLoop sattrs l = true ↔ ∀ kv ∈ l, lookupA sattrs kv.1 = some kv.2 := by
  induction l with
  | nil => simp [matchLoop]
  | cons kv rest ih =>
    obtain ⟨k, v⟩ := kv
    unfold matchLoop
    by_cases h : lookupA sattrs k = some v
    · rw [if_pos h, ih]
      constructor
      · intro hall kv2 hkv2
        rcases List.mem_cons.mp hkv2 with h2 | h2
        · rw [h2]
          exact h
        · exact hall kv2 h2
      · intro hall kv2 hkv2
        exact hall kv2 (List.mem_cons_of_mem _ hkv2)
    · rw [if_neg h]
      constructor
      · intro hfalse
        exact absurd hfalse (by simp)
      · intro hall
        exact absurd (hall (k, v) (List.mem_cons_self _ _)) h

/-- C7: `node.matches(name, attributes)` returns `True` iff (when a name
is given) the node's name equals it exactly and every supplied attribute
key is present on the node's span with an exactly-equal value; a missing
key or mismatched value yields `False` (and never an error — the function
is total); attributes on the node that are not supplied are ignored. -/
theorem C7_matches (n : SpanNode) (nm : Option String)
    (attrs : Option (List (String × AttrValue))) :
    n.matches nm attrs = true
      ↔ ((∀ x, nm = some x → n.name = x)
          ∧ (∀ l, attrs = some l →
              ∀ kv ∈ l, lookupA n.span.attributes kv.1 = some kv.2)) := by
  have hattr : ∀ l0 : List (String × AttrValue),
      (if l0.isEmpty then true else matchLoop n.span.attributes l0) = true
        ↔ ∀ kv ∈ l0, lookupA n.span.attributes kv.1 = some kv.2 := by
    intro l0
    by_cases he : l0.isEmpty
    · rw [if_pos he]
      have : l0 = [] := by simpa using he
      subst this
      simp
    · rw [if_neg he]
      exact matchLoop_iff _ _
  unfold SpanNode.matches
  cases nm with
  | none =>
    cases attrs with
    | none => simp
    | some l =>
      rw [hattr l]
      constructor
      · intro h
        refine ⟨by simp, ?_⟩
        intro l2 hl2
        rw [Option.some.injEq] at hl2
        rw [← hl2]
        exact h
      · intro h
        exact h.2 l rfl
  | some x =>
    show (if n.name = x then
        (match attrs with
          | none => true
          | some attrs => if attrs.isEmpty = true then true
              else matchLoop n.span.attributes attrs)
      else false) = true ↔ _
    by_cases hname : n.name = x
    · rw [if_pos hname]
      cases attrs with
      | none =>
        simp only [Option.some.injEq]
        constructor
        · intro _
          exact ⟨fun y hy => hy ▸ hname, by simp⟩
        · intro _
          trivial
      | some l =>
        rw [hattr l]
        constructor
        · intro h
          refine ⟨fun y hy => (Option.some.inj hy) ▸ hname, ?_⟩
          intro l2 hl2
          rw [Option.some.injEq] at hl2
          rw [← hl2]
          exact h
        · intro h
          exact h.2 l rfl
    · rw [if_neg hname]
      constructor
      · intro hfalse
        exact absurd hfalse (by simp)
      · intro h
        exact absurd (h.1 x rfl) hname

def c7Node : SpanNode :=
  ⟨⟨"query", some ⟨1, 2⟩, none, some 3, some 4,
    [("kind", .str "db"), ("rows", .int 7), ("extra", .bool true)]⟩, ⟨1, 2⟩, none, []⟩

/-- Witness for C7: a concrete successful match (extra node attributes
ignored) obtained through the characterisation. -/
theorem C7_witness :
    (∀ x, (some "query" : Option String) = some x → c7Node.name = x)
    ∧ (∀ l, (some [("rows", AttrValue.int 7), ("kind", AttrValue.str "db")]
          : Option (List (String × AttrValue))) = some l →
        ∀ kv ∈ l, lookupA c7Node.span.attributes kv.1 = some kv.2) :=
  (C7_matches c7Node (some "query")
    (some [("rows", AttrValue.int 7), ("kind", AttrValue.str "db")])).mp (by decide)

/-- C8: After `shutdown()` has been called, every subsequent `export`
returns `SpanExportResult.FAILURE` to the caller without raising (the
modelled call is total) and leaves every buffer unchanged — no spans are
added to any scope — no matter which exporter calls happen in between;
and before shutdown, an `export` with no active context id reports
success while dropping the spans (the state is unchanged). -/
theorem C8_export_shutdown (st0 : ExporterState) (ops : List ExporterOp)
    (ctx : Option String) (spans : List ReadableSpan) :
    ((applyOps st0.shutdown ops).stopped = true)
    ∧ (ExporterState.exportSpans (applyOps st0.shutdown ops) ctx spans
        = (applyOps st0.shutdown ops, SpanExportResult.failure))
    ∧ (st0.stopped = false →
        ExporterState.exportSpans st0 none spans = (st0, SpanExportResult.success)) := by
  have hstop : ∀ (ops2 : List ExporterOp) (st : ExporterState), st.stopped = true →
      (applyOps st ops2).stopped = true := by
    intro ops2
    induction ops2 with
    | nil => intro st h; exact h
    | cons op rest ih =>
      intro st h
      show (applyOps (applyOp st op) rest).stopped = true
      apply ih
      cases op with
      | exportOp ctx2 spans2 =>
        show (st.exportSpans ctx2 spans2).1.stopped = true
        unfold ExporterState.exportSpans
        rw [if_pos h]
        exact h
      | clearOp ctx2 =>
        cases ctx2 with
        | none => exact h
        | some cid => exact h
      | getOp _ => exact h
      | shutdownOp => rfl
      | forceFlushOp => exact h
  have h1 : (applyOps st0.shutdown ops).stopped = true := hstop ops _ rfl
  refine ⟨h1, ?_, ?_⟩
  · unfold ExporterState.exportSpans
    rw [if_pos h1]
  · intro h
    unfold ExporterState.exportSpans
    rw [if_neg (by rw [h]; simp)]

/-- Witness for C8 at a concrete exporter state and op sequence,
discharging the pre-shutdown hypothesis. -/
theorem C8_witness :
    ((applyOps (ExporterState.shutdown ⟨[], false⟩)
        [ExporterOp.exportOp (some "c") [], ExporterOp.forceFlushOp]).stopped = true)
    ∧ (ExporterState.exportSpans
        (applyOps (ExporterState.shutdown ⟨[], false⟩)
          [ExporterOp.exportOp (some "c") [], ExporterOp.forceFlushOp]) (some "c") []
        = (applyOps (ExporterState.shutdown ⟨[], false⟩)
            [ExporterOp.exportOp (some "c") [], ExporterOp.forceFlushOp],
           SpanExportResult.failure))
    ∧ (ExporterState.exportSpans ⟨[], false⟩ none []
        = (⟨[], false⟩, SpanExportResult.success)) := by
  have h := C8_export_shutdown ⟨[], false⟩
    [ExporterOp.exportOp (some "c") [], ExporterOp.forceFlushOp] (some "c") []
  exact ⟨h.1, h.2.1, h.2.2 rfl⟩

/-! ### Transfer lemmas between the raw and rebuilt tables -/

theorem m0_pairs {m0 : NodeMap} (hwf : NodeMapWF m0) :
    m0.map (fun p => ((p.2 : SpanNode).span_id, p.2)) = m0 := by
  have hpt : ∀ p ∈ m0, ((fun p => ((p.2 : SpanNode).span_id, p.2)) p) = id p := by
    intro p hp
    show ((p.2 : SpanNode).span_id, p.2) = p
    rw [Prod.ext_iff]
    exact ⟨(hwf.2 p hp).1, rfl⟩
  rw [List.map_congr_left hpt, List.map_id]

theorem sorted_pairs_perm {m0 : NodeMap} (hwf : NodeMapWF m0) :
    List.Perm ((sortedNodes m0).map (fun n => (n.span_id, n))) m0 := by
  have h1 := (sortedNodes_perm m0).map (fun n => (n.span_id, n))
  have h2 : (m0.map Prod.snd).map (fun n => (n.span_id, n))
      = m0.map (fun p => ((p.2 : SpanNode).span_id, p.2)) := by
    rw [List.map_map]
    rfl
  rw [h2, m0_pairs hwf] at h1
  exact h1

theorem sorted_pairs_lookup_m0 {m0 : NodeMap} (hwf : NodeMapWF m0) (k : SpanId) :
    lookupA ((sortedNodes m0).map (fun n => (n.span_id, n))) k = lookupA m0 k :=
  lookupA_perm (sorted_pairs_perm hwf) hwf.1 k

theorem sortedKeys_mem {m0 : NodeMap} (hwf : NodeMapWF m0) (x : SpanId) :
    x ∈ sortedKeys m0 ↔ x ∈ m0.map Prod.fst := by
  unfold sortedKeys
  rw [((sortedNodes_perm m0).map SpanNode.span_id).mem_iff, WF_values_ids hwf]

theorem parentTarget_of_span_eq {K : List SpanId} {a b : SpanNode}
    (h : a.span = b.span) : parentTarget K a = parentTarget K b := by
  unfold parentTarget SpanNode.parent_context
  rw [h]

/-- With distinct span ids, the unique record with a given id is its own
last occurrence. -/
theorem lastWith_of_nodup {spans : List ReadableSpan} (hnd : (spanIds spans).Nodup)
    {s : ReadableSpan} {k : SpanId} (hs : s ∈ spans) (hid : recordId s = some k) :
    lastWith k spans = some s := by
  induction spans with
  | nil => simp at hs
  | cons a rest ih =>
    rcases List.mem_cons.mp hs with hsa | hsr
    · subst hsa
      have hids : spanIds (s :: rest) = k :: spanIds rest := by
        unfold spanIds
        rw [List.filterMap_cons, hid]
      rw [hids] at hnd
      have hnd' := List.nodup_cons.mp hnd
      unfold lastWith
      rw [List.filter_cons_of_pos (by simpa using hid)]
      have hrest : rest.filter (fun t => decide (recordId t = some k)) = [] := by
        rw [List.filter_eq_nil_iff]
        intro t ht
        simp only [decide_eq_true_eq]
        intro hcontra
        apply hnd'.1
        unfold spanIds
        exact List.mem_filterMap.mpr ⟨t, ht, hcontra⟩
      rw [hrest]
      rfl
    · have hnd2 : (spanIds rest).Nodup := by
        unfold spanIds at hnd ⊢
        rw [List.filterMap_cons] at hnd
        cases hra : recordId a with
        | none => rw [hra] at hnd; exact hnd
        | some j =>
          rw [hra] at hnd
          exact (List.nodup_cons.mp hnd).2
      have hk : k ∈ spanIds rest := by
        unfold spanIds
        exact List.mem_filterMap.mpr ⟨s, hsr, hid⟩
      have hne : ¬ (recordId a = some k) := by
        intro hcontra
        unfold spanIds at hnd
        rw [List.filterMap_cons, hcontra] at hnd
        exact (List.nodup_cons.mp hnd).1 hk
      unfold lastWith
      rw [List.filter_cons_of_neg (by simpa using hne)]
      exact ih hnd2 hsr

/-- C6: For every input list (all records carrying a context), the built
tree keeps exactly one node per span id: the id set of `nodes_by_id` is
duplicate-free, its size is the number of distinct span ids in the input,
and the node stored under each id wraps the record that appears last in
input order with that id (last-write-wins, so a later duplicate's
attributes replace an earlier one's). -/
theorem C6_duplicate_collapse (spans : List ReadableSpan)
    (hctx : ∀ s ∈ spans, (s.context).isSome = true)
    (t : SpanTree) (ht : SpanTree.build spans = some t) :
    ((t.nodes_by_id.map Prod.fst).Nodup)
    ∧ (t.nodes_by_id.length = (spanIds spans).dedup.length)
    ∧ (∀ k, (lookupA t.nodes_by_id k).map SpanNode.span = lastWith k spans) := by
  cases h0 : addNodes [] spans with
  | none =>
    have htot := addNodes_isSome spans [] hctx
    rw [h0] at htot
    simp at htot
  | some m0 =>
    have hwf : NodeMapWF m0 := addNodes_WF spans [] m0 nodeMapWF_nil h0
    have hteq : t = ⟨(rebuildTree m0).1, (rebuildTree m0).2⟩ := by
      have := build_eq spans m0 h0
      rw [ht] at this
      exact Option.some.inj this
    subst hteq
    refine ⟨?_, ?_, ?_⟩
    · show (((rebuildTree m0).1).map Prod.fst).Nodup
      rw [rebuild_keys hwf]
      exact sortedKeys_nodup hwf
    · show ((rebuildTree m0).1).length = (spanIds spans).dedup.length
      rw [rebuildTree_fst_sorted hwf, List.length_map]
      have hlen1 : (sortedNodes m0).length = m0.length := by
        rw [(sortedNodes_perm m0).length_eq, List.length_map]
      rw [hlen1]
      have hmem : ∀ k, k ∈ m0.map Prod.fst ↔ k ∈ spanIds spans := by
        intro k
        rw [addNodes_mem_keys spans [] m0 h0 k]
        simp
      have hfin : (m0.map Prod.fst).toFinset = (spanIds spans).toFinset := by
        apply Finset.ext
        intro a
        rw [List.mem_toFinset, List.mem_toFinset]
        exact hmem a
      have h1 : m0.length = (m0.map Prod.fst).length := (List.length_map _ _).symm
      have h2 : (m0.map Prod.fst).length = (m0.map Prod.fst).dedup.length := by
        rw [List.dedup_eq_self.mpr hwf.1]
      rw [h1, h2, ← List.card_toFinset, hfin, List.card_toFinset]
    · intro k
      show (lookupA ((rebuildTree m0)).1 k).map SpanNode.span = lastWith k spans
      rw [rebuild_lookup hwf k, sorted_pairs_lookup_m0 hwf k]
      rw [addNodes_lookupA spans [] m0 h0 k]
      cases hl : lastWith k spans with
      | none => rfl
      | some s =>
        have hcs := lastWith_context hl
        unfold recordId at hcs
        cases hc : s.context with
        | none =>
          rw [hc] at hcs
          simp at hcs
        | some c =>
          show ((SpanNode.ofSpan s).map
            (fun n => attachResult (sortedKeys m0) (sortedNodes m0) k n)).map SpanNode.span
            = some s
          rw [ofSpan_of_context hc]
          show some ((attachResult (sortedKeys m0) (sortedNodes m0) k ⟨s, c, none, []⟩).span)
            = some s
          rw [attachResult_span]

def c6Dup1 : ReadableSpan := ⟨"first", some ⟨1, 5⟩, none, some 1, none, [("v", .int 1)]⟩
def c6Dup2 : ReadableSpan := ⟨"second", some ⟨1, 5⟩, none, some 2, none, [("v", .int 2)]⟩
def c6Other : ReadableSpan := ⟨"other", some ⟨1, 6⟩, none, some 3, none, []⟩

/-- Witness for C6 at a concrete list with a duplicated id 5: one node per
distinct id, and id 5 carries the later record. -/
theorem C6_witness :
    (SpanTree.build [c6Dup1, c6Dup2, c6Other]).elim False (fun t =>
      ((t.nodes_by_id.map Prod.fst).Nodup)
      ∧ t.nodes_by_id.length = 2
      ∧ (lookupA t.nodes_by_id 5).map SpanNode.span = some c6Dup2) := by
  cases ht : SpanTree.build [c6Dup1, c6Dup2, c6Other] with
  | none =>
    have := build_isSome [c6Dup1, c6Dup2, c6Other] (by decide)
    rw [ht] at this
    simp at this
  | some t =>
    have h := C6_duplicate_collapse [c6Dup1, c6Dup2, c6Other] (by decide) t ht
    refine ⟨h.1, ?_, ?_⟩
    · rw [h.2.1]
      decide
    · rw [h.2.2 5]
      decide

/-- C5: For every record set (contexts present, ids distinct), a record
whose `parent` is absent (`None`) or names a span id not present among the
records becomes a root of the built tree, and no record whose parent id is
present becomes a root. -/
theorem C5_root_promotion (spans : List ReadableSpan)
    (hctx : ∀ s ∈ spans, (s.context).isSome = true)
    (hnd : (spanIds spans).Nodup)
    (t : SpanTree) (ht : SpanTree.build spans = some t) :
    ∀ s ∈ spans, ∀ c, s.context = some c →
      (c.span_id ∈ t.roots ↔
        (s.parent = none ∨ ∃ p, s.parent = some p ∧ p.span_id ∉ spanIds spans)) := by
  cases h0 : addNodes [] spans with
  | none =>
    have htot := addNodes_isSome spans [] hctx
    rw [h0] at htot
    simp at htot
  | some m0 =>
    have hwf : NodeMapWF m0 := addNodes_WF spans [] m0 nodeMapWF_nil h0
    have hteq : t = ⟨(rebuildTree m0).1, (rebuildTree m0).2⟩ := by
      have := build_eq spans m0 h0
      rw [ht] at this
      exact Option.some.inj this
    subst hteq
    intro s hs c hc
    have hid : recordId s = some c.span_id := by
      unfold recordId
      rw [hc]
      rfl
    have hlast := lastWith_of_nodup hnd hs hid
    have hlook0 : lookupA m0 c.span_id = some ⟨s, c, none, []⟩ := by
      rw [addNodes_lookupA spans [] m0 h0 c.span_id, hlast]
      exact ofSpan_of_context hc
    have hlook : lookupA (rebuildTree m0).1 c.span_id
        = some (attachResult (sortedKeys m0) (sortedNodes m0) c.span_id ⟨s, c, none, []⟩) := by
      rw [rebuild_lookup hwf, sorted_pairs_lookup_m0 hwf, hlook0]
      rfl
    have hp : (c.span_id,
        attachResult (sortedKeys m0) (sortedNodes m0) c.span_id ⟨s, c, none, []⟩)
        ∈ (rebuildTree m0).1 := lookupA_mem hlook
    show c.span_id ∈ (rebuildTree m0).2 ↔ _
    rw [rebuild_root_entry hwf hp]
    have hsp : (attachResult (sortedKeys m0) (sortedNodes m0) c.span_id
        (⟨s, c, none, []⟩ : SpanNode)).span = s := attachResult_span _ _ _ _
    rw [parentTarget_of_span_eq (a :=
        attachResult (sortedKeys m0) (sortedNodes m0) c.span_id ⟨s, c, none, []⟩)
      (b := ⟨s, c, none, []⟩) hsp]
    unfold parentTarget SpanNode.parent_context
    show (match s.parent with
      | none => none
      | some pctx => if pctx.span_id ∈ sortedKeys m0 then some pctx.span_id else none) = none
      ↔ _
    cases hpar : s.parent with
    | none =>
      simp
    | some p =>
      show (if p.span_id ∈ sortedKeys m0 then some p.span_id else none) = none ↔ _
      have hK : p.span_id ∈ sortedKeys m0 ↔ p.span_id ∈ spanIds spans := by
        rw [sortedKeys_mem hwf, addNodes_mem_keys spans [] m0 h0]
        simp
      by_cases hmem : p.span_id ∈ sortedKeys m0
      · rw [if_pos hmem]
        constructor
        · intro hcontra
          exact absurd hcontra (by simp)
        · rintro (h | ⟨p2, hp2, hnotin⟩)
          · exact absurd h (by simp)
          · have hpp : p = p2 := Option.some.inj hp2
            exact absurd (hK.mp hmem) (hpp ▸ hnotin)
      · rw [if_neg hmem]
        constructor
        · intro _
          right
          exact ⟨p, rfl, fun hcontra => hmem (hK.mpr hcontra)⟩
        · intro _
          rfl

def c5Root : ReadableSpan := ⟨"root", some ⟨1, 1⟩, none, some 0, none, []⟩
def c5Child : ReadableSpan := ⟨"child", some ⟨1, 2⟩, some ⟨1, 1⟩, some 5, none, []⟩
def c5Orphan : ReadableSpan := ⟨"orphan", some ⟨1, 3⟩, some ⟨1, 99⟩, some 1, none, []⟩

/-- Witness for C5 at the spec's example shape: the parentless record and
the record with missing parent 99 are roots; the one with present parent 1
is not. -/
theorem C5_witness :
    (SpanTree.build [c5Root, c5Child, c5Orphan]).elim False (fun t =>
      (1 ∈ t.roots) ∧ (3 ∈ t.roots) ∧ ¬ (2 ∈ t.roots)) := by
  cases ht : SpanTree.build [c5Root, c5Child, c5Orphan] with
  | none =>
    have := build_isSome [c5Root, c5Child, c5Orphan] (by decide)
    rw [ht] at this
    simp at this
  | some t =>
    have h := C5_root_promotion [c5Root, c5Child, c5Orphan] (by decide) (by decide) t ht
    refine ⟨?_, ?_, ?_⟩
    · exact (h c5Root (by decide) ⟨1, 1⟩ rfl).mpr (Or.inl rfl)
    · exact (h c5Orphan (by decide) ⟨1, 3⟩ rfl).mpr
        (Or.inr ⟨⟨1, 99⟩, rfl, by decide⟩)
    · intro hmem
      have := (h c5Child (by decide) ⟨1, 2⟩ rfl).mp hmem
      rcases this with h1 | ⟨p, hp, hnotin⟩
      · simp [c5Child] at h1
      · have : p = ⟨1, 1⟩ := by
          have : c5Child.parent = some ⟨1, 1⟩ := rfl
          rw [this, Option.some.injEq] at hp
          exact hp.symm
        subst this
        exact hnotin (by decide)

/-! ## Lemmas: the faithful sort path in closed form -/

theorem pyNodeLE_trans : ∀ a b c : SpanNode, pyNodeLE a b = true → pyNodeLE b c = true →
    pyNodeLE a c = true :=
  fun _ _ _ hab hbc => keyLE_trans _ _ _ hab hbc

theorem pyNodeLE_total : ∀ a b : SpanNode, pyNodeLE a b || pyNodeLE b a :=
  fun a b => keyLE_total _ _

theorem pySpanLE_trans : ∀ a b c : ReadableSpan, pySpanLE a b = true → pySpanLE b c = true →
    pySpanLE a c = true :=
  fun _ _ _ hab hbc => keyLE_trans _ _ _ hab hbc

theorem pySpanLE_total : ∀ a b : ReadableSpan, pySpanLE a b || pySpanLE b a :=
  fun a b => keyLE_total _ _

/-- The attachment phase in closed form, for any ordering of the fresh
node values (shared by both sort paths). -/
theorem attachPhase_fst {m0 : NodeMap} (hwf : NodeMapWF m0) {s : List SpanNode}
    (hperm : List.Perm s (m0.map Prod.snd)) :
    (attachPhase s).1
      = s.map (fun n => (n.span_id, attachResult (s.map SpanNode.span_id) s n.span_id n)) := by
  have hidnd : (s.map SpanNode.span_id).Nodup := by
    rw [(hperm.map SpanNode.span_id).nodup_iff, WF_values_ids hwf]
    exact hwf.1
  have hfresh : ∀ c ∈ s, ∀ p ∈ s.map (fun n => (n.span_id, n)),
      c.span_id ∉ (p.2 : SpanNode).children_ids := by
    intro c _ p hp
    obtain ⟨n0, hn0, hdef⟩ := List.mem_map.mp hp
    have hn0m : n0 ∈ m0.map Prod.snd := hperm.mem_iff.mp hn0
    obtain ⟨p0, hp0, hdef0⟩ := List.mem_map.mp hn0m
    have hch : n0.children_ids = [] := by
      rw [← hdef0]
      exact (hwf.2 p0 hp0).2.2
    rw [← hdef]
    simp [hch]
  have hmain := attach_foldl s (s.map (fun n => (n.span_id, n))) hidnd hfresh
  have hkeys : (s.map (fun n => (n.span_id, n))).map Prod.fst = s.map SpanNode.span_id := by
    rw [List.map_map]
    rfl
  show s.foldl attachStep (s.map (fun n => (n.span_id, n))) = _
  rw [hmain, hkeys, List.map_map]
  rfl

theorem pySortedNodes_perm (m0 : NodeMap) :
    List.Perm (pySortedNodes m0) (m0.map Prod.snd) := List.mergeSort_perm _ _

theorem pyRebuild_fst {m0 : NodeMap} (hwf : NodeMapWF m0) :
    (attachPhase (pySortedNodes m0)).1
      = (pySortedNodes m0).map
          (fun n => (n.span_id,
            attachResult (pySortedKeys m0) (pySortedNodes m0) n.span_id n)) :=
  attachPhase_fst hwf (pySortedNodes_perm m0)

theorem pyRebuild_lookup {m0 : NodeMap} (hwf : NodeMapWF m0) (k : SpanId) :
    lookupA (attachPhase (pySortedNodes m0)).1 k
      = (lookupA ((pySortedNodes m0).map (fun n => (n.span_id, n))) k).map
          (fun n => attachResult (pySortedKeys m0) (pySortedNodes m0) k n) := by
  rw [pyRebuild_fst hwf]
  have hshape : (pySortedNodes m0).map
      (fun n => (n.span_id, attachResult (pySortedKeys m0) (pySortedNodes m0) n.span_id n))
      = ((pySortedNodes m0).map (fun n => (n.span_id, n))).map
          (fun p => (p.1, attachResult (pySortedKeys m0) (pySortedNodes m0) p.1 p.2)) := by
    rw [List.map_map]
    rfl
  rw [hshape, lookupA_mapVal]

theorem py_pairs_perm {m0 : NodeMap} (hwf : NodeMapWF m0) :
    List.Perm ((pySortedNodes m0).map (fun n => (n.span_id, n))) m0 := by
  have h1 := (pySortedNodes_perm m0).map (fun n => (n.span_id, n))
  have h2 : (m0.map Prod.snd).map (fun n => (n.span_id, n))
      = m0.map (fun p => ((p.2 : SpanNode).span_id, p.2)) := by
    rw [List.map_map]
    rfl
  rw [h2, m0_pairs hwf] at h1
  exact h1

theorem py_pairs_lookup_m0 {m0 : NodeMap} (hwf : NodeMapWF m0) (k : SpanId) :
    lookupA ((pySortedNodes m0).map (fun n => (n.span_id, n))) k = lookupA m0 k :=
  lookupA_perm (py_pairs_perm hwf) hwf.1 k

theorem pySortedKeys_mem {m0 : NodeMap} (hwf : NodeMapWF m0) (x : SpanId) :
    x ∈ pySortedKeys m0 ↔ x ∈ m0.map Prod.fst := by
  unfold pySortedKeys
  rw [((pySortedNodes_perm m0).map SpanNode.span_id).mem_iff, WF_values_ids hwf]

/-- A node list whose microsecond keys all agree sorts to itself: the
stable sort keeps the input order of equal keys. -/
theorem mergeSort_const_key (k : Nat) (l : List SpanNode)
    (hall : ∀ n ∈ l, SpanNode.pyStartKey n = some k) :
    l.mergeSort pyNodeLE = l := by
  have hstab := filter_mergeSort_stable pyNodeLE pyNodeLE_trans pyNodeLE_total
    (fun n => decide (SpanNode.pyStartKey n = some k))
    (fun a b ha hb => by
      have ha2 : SpanNode.pyStartKey a = some k := of_decide_eq_true ha
      have hb2 : SpanNode.pyStartKey b = some k := of_decide_eq_true hb
      unfold pyNodeLE
      rw [ha2, hb2]
      exact keyLE_refl (some k)) l
  have hl : l.filter (fun n => decide (SpanNode.pyStartKey n = some k)) = l :=
    List.filter_eq_self.mpr (fun a ha => by simpa using hall a ha)
  have hms : (l.mergeSort pyNodeLE).filter (fun n => decide (SpanNode.pyStartKey n = some k))
      = l.mergeSort pyNodeLE :=
    List.filter_eq_self.mpr (fun a ha => by
      simpa using hall a ((List.mergeSort_perm l pyNodeLE).mem_iff.mp ha))
  rw [hms, hl] at hstab
  exact hstab

/-- The canonical node order of a successful faithful build: the stable
sort of the records by the microsecond key. -/
theorem buildPy_order (spans : List ReadableSpan)
    (hctx : ∀ s ∈ spans, (s.context).isSome = true)
    (hnd : (spanIds spans).Nodup)
    (hmix : mixedStarts spans = false)
    (t : SpanTree) (ht : SpanTree.buildPy spans = some t) :
    t.nodes_by_id.map (fun p => (p.2 : SpanNode).span) = spans.mergeSort pySpanLE := by
  cases h0 : addNodes [] spans with
  | none =>
    have htot := addNodes_isSome spans [] hctx
    rw [h0] at htot
    simp at htot
  | some m0 =>
    have hwf : NodeMapWF m0 := addNodes_WF spans [] m0 nodeMapWF_nil h0
    have hmixv : mixedStartTimes (m0.map Prod.snd) = false := by
      rw [mixed_values hctx hnd h0]
      exact hmix
    have hteq : t = ⟨(attachPhase (pySortedNodes m0)).1, (attachPhase (pySortedNodes m0)).2⟩ := by
      have := buildPy_eq h0 hmixv
      rw [ht] at this
      exact Option.some.inj this
    subst hteq
    have hm0 : m0 = spans.filterMap freshEntry := by
      have hap := addNodes_eq_append spans [] hctx hnd
        (fun k _ => by simp [hasKeyA, lookupA])
      rw [h0] at hap
      have := Option.some.inj hap
      rw [List.nil_append] at this
      exact this
    show ((attachPhase (pySortedNodes m0)).1).map (fun p => (p.2 : SpanNode).span) = _
    rw [pyRebuild_fst hwf, List.map_map]
    have hcomp : ∀ n ∈ pySortedNodes m0,
        ((fun p => (p.2 : SpanNode).span) ∘
          (fun n => (n.span_id,
            attachResult (pySortedKeys m0) (pySortedNodes m0) n.span_id n))) n
        = SpanNode.span n := by
      intro n _
      show (attachResult (pySortedKeys m0) (pySortedNodes m0) n.span_id n).span = n.span
      rw [attachResult_span]
    rw [List.map_congr_left hcomp]
    unfold pySortedNodes
    rw [List.map_mergeSort (r := pyNodeLE) (s := pySpanLE) (f := SpanNode.span)
      (fun a _ b _ => rfl)]
    have hvals : (m0.map Prod.snd).map SpanNode.span = spans := by
      rw [hm0]
      have := filterMap_freshEntry_spans spans hctx
      rw [List.map_map]
      exact this
    rw [hvals]

/-- C2 (amended): the code's sort key is the microsecond-rounded
`datetime` built from `start_time / 1e9`, and the naive `datetime.min`
placeholder cannot be ordered against it.  So: a batch mixing absent and
present `start_time` raises and no tree is built; an unmixed batch builds
a tree whose canonical node order — the iteration order of `nodes_by_id`
— is the stable ascending sort of the records by the *microsecond* key:
sorted by that key, a permutation of the input, and each equal-microsecond
class keeps its relative input order (in particular, distinct nanosecond
start times in one microsecond keep input order rather than sorting). -/
theorem C2_microsecond_order (spans : List ReadableSpan)
    (hctx : ∀ s ∈ spans, (s.context).isSome = true)
    (hnd : (spanIds spans).Nodup) :
    (mixedStarts spans = true → SpanTree.buildPy spans = none)
    ∧ (mixedStarts spans = false → ∀ t, SpanTree.buildPy spans = some t →
        ((t.nodes_by_id.map (fun p => (p.2 : SpanNode).span)).Pairwise
            (fun a b => pySpanLE a b = true))
        ∧ List.Perm (t.nodes_by_id.map (fun p => (p.2 : SpanNode).span)) spans
        ∧ (∀ k : Option Nat,
            (t.nodes_by_id.map (fun p => (p.2 : SpanNode).span)).filter
                (fun s => decide (ReadableSpan.pyKey s = k))
              = spans.filter (fun s => decide (ReadableSpan.pyKey s = k)))) := by
  constructor
  · exact buildPy_none_of_mixed spans hctx hnd
  · intro hmix t ht
    have hord := buildPy_order spans hctx hnd hmix t ht
    rw [hord]
    refine ⟨?_, ?_, ?_⟩
    · exact List.sorted_mergeSort pySpanLE_trans pySpanLE_total spans
    · exact List.mergeSort_perm spans pySpanLE
    · intro k
      apply filter_mergeSort_stable pySpanLE pySpanLE_trans pySpanLE_total
      intro a b ha hb
      have ha2 : ReadableSpan.pyKey a = k := of_decide_eq_true ha
      have hb2 : ReadableSpan.pyKey b = k := of_decide_eq_true hb
      unfold pySpanLE
      rw [ha2, hb2]
      exact keyLE_refl k

def c2Nine : ReadableSpan := ⟨"nine", some ⟨1, 1⟩, none, some 9, none, []⟩
def c2Five : ReadableSpan := ⟨"five", some ⟨1, 2⟩, none, some 5, none, []⟩
def c2NineNode : SpanNode := ⟨c2Nine, ⟨1, 1⟩, none, []⟩
def c2FiveNode : SpanNode := ⟨c2Five, ⟨1, 2⟩, none, []⟩

/-- C2 counterexample: two records whose distinct nanosecond start times
(9 ns, then 5 ns) fall in the same microsecond.  The original claim makes
the canonical order the ascending `start_time` sort `[5 ns, 9 ns]`; the
code's key is the microsecond-rounded `datetime`, equal for both, so the
stable sort keeps input order and the built table iterates
`[9 ns, 5 ns]` — an order the claimed `start_time` comparison rejects
(second conjunct). -/
theorem C2_counterexample :
    (SpanTree.buildPy [c2Nine, c2Five]).map
        (fun t => t.nodes_by_id.map (fun p => (p.2 : SpanNode).span.start_time))
      = some [some 9, some 5]
    ∧ spanLE c2Nine c2Five = false := by
  constructor
  · have hadd : addNodes [] [c2Nine, c2Five]
        = some [(1, c2NineNode), (2, c2FiveNode)] := rfl
    rw [buildPy_eq hadd (by decide)]
    unfold pySortedNodes
    have hv : ([(1, c2NineNode), (2, c2FiveNode)] : NodeMap).map Prod.snd
        = [c2NineNode, c2FiveNode] := rfl
    rw [hv, mergeSort_const_key 0 [c2NineNode, c2FiveNode] (by decide)]
    decide
  · decide

def c2A : ReadableSpan := ⟨"a", some ⟨1, 1⟩, none, some 5000, none, []⟩
def c2B : ReadableSpan := ⟨"b", some ⟨1, 2⟩, none, some 1000, none, []⟩
def c2C : ReadableSpan := ⟨"c", some ⟨1, 3⟩, none, some 1200, none, []⟩

/-- Witness for C2 (amended) at a concrete unmixed input with a
microsecond tie (1000 ns and 1200 ns share microsecond 1), discharging
every hypothesis. -/
theorem C2_witness :
    (SpanTree.buildPy [c2A, c2B, c2C]).elim False (fun t =>
      ((t.nodes_by_id.map (fun p => (p.2 : SpanNode).span)).Pairwise
          (fun a b => pySpanLE a b = true))
      ∧ List.Perm (t.nodes_by_id.map (fun p => (p.2 : SpanNode).span)) [c2A, c2B, c2C]
      ∧ (∀ k : Option Nat,
          (t.nodes_by_id.map (fun p => (p.2 : SpanNode).span)).filter
              (fun s => decide (ReadableSpan.pyKey s = k))
            = [c2A, c2B, c2C].filter (fun s => decide (ReadableSpan.pyKey s = k)))) := by
  cases ht : SpanTree.buildPy [c2A, c2B, c2C] with
  | none =>
    have := buildPy_isSome [c2A, c2B, c2C] (by decide) (by decide) (by decide)
    rw [ht] at this
    simp at this
  | some t =>
    exact (C2_microsecond_order [c2A, c2B, c2C] (by decide) (by decide)).2
      (by decide) t ht

/-- In a table with unique keys, exactly one entry has a given present
key. -/
theorem countP_key_eq {m : NodeMap} (hnd : (m.map Prod.fst).Nodup) {x : SpanId}
    (hx : x ∈ m.map Prod.fst) :
    m.countP (fun q => decide (q.1 = x)) = 1 := by
  have h1 : (m.map Prod.fst).countP (fun k => decide (k = x))
      = m.countP (fun q => decide (q.1 = x)) := by
    rw [List.countP_map]
    rfl
  rw [← h1]
  have h2 : (m.map Prod.fst).countP (fun k => decide (k = x))
      = (m.map Prod.fst).count x := by
    rw [List.count_eq_countP]
    apply List.countP_congr
    intro k _
    simp
  rw [h2]
  exact List.count_eq_one_of_mem hnd hx

/-- C4: In the built tree, a root key never occurs in any node's children
list, and every non-root key occurs in the children list of exactly one
table entry — the entry whose span id equals the node's parent id. -/
theorem C4_parentage (spans : List ReadableSpan)
    (hctx : ∀ s ∈ spans, (s.context).isSome = true)
    (t : SpanTree) (ht : SpanTree.build spans = some t) :
    ∀ p ∈ t.nodes_by_id,
      (p.1 ∈ t.roots → ∀ q ∈ t.nodes_by_id, p.1 ∉ (q.2 : SpanNode).children_ids)
      ∧ (p.1 ∉ t.roots → ∃ pctx, (p.2 : SpanNode).parent_context = some pctx
          ∧ t.nodes_by_id.countP
              (fun q => decide (p.1 ∈ (q.2 : SpanNode).children_ids)) = 1
          ∧ ∀ q ∈ t.nodes_by_id, p.1 ∈ (q.2 : SpanNode).children_ids →
              (q.2 : SpanNode).span_id = pctx.span_id) := by
  cases h0 : addNodes [] spans with
  | none =>
    have htot := addNodes_isSome spans [] hctx
    rw [h0] at htot
    simp at htot
  | some m0 =>
    have hwf : NodeMapWF m0 := addNodes_WF spans [] m0 nodeMapWF_nil h0
    have hteq : t = ⟨(rebuildTree m0).1, (rebuildTree m0).2⟩ := by
      have := build_eq spans m0 h0
      rw [ht] at this
      exact Option.some.inj this
    subst hteq
    intro p hp
    obtain ⟨np, hnp, hnpid, hspan, hctx2, hch, hpar⟩ := rebuild_entry hwf hp
    have hndS : ((sortedNodes m0).map SpanNode.span_id).Nodup := sortedKeys_nodup hwf
    have htgt : parentTarget (sortedKeys m0) p.2 = parentTarget (sortedKeys m0) np :=
      parentTarget_of_span_eq hspan
    -- membership of an id in the children of an entry keyed k
    have hmemch : ∀ q, q ∈ (rebuildTree m0).1 → ∀ cid,
        (cid ∈ (q.2 : SpanNode).children_ids
          ↔ ∃ c ∈ sortedNodes m0,
              parentTarget (sortedKeys m0) c = some q.1 ∧ c.span_id = cid) := by
      intro q hq cid
      obtain ⟨nq, hnq, hnqid, hqspan, hqctx, hqch, hqpar⟩ := rebuild_entry hwf hq
      rw [hqch]
      exact childrenOf_mem_iff _ _ _ _
    constructor
    · -- root: never a child
      intro hroot q hq hmem
      have htgt0 : parentTarget (sortedKeys m0) p.2 = none :=
        (rebuild_root_entry hwf hp).mp hroot
      obtain ⟨c, hc, hcpt, hcid⟩ := (hmemch q hq p.1).mp hmem
      have hcnp : c = np :=
        List.inj_on_of_nodup_map hndS hc hnp (by rw [hcid, hnpid])
      rw [hcnp] at hcpt
      rw [htgt] at htgt0
      rw [htgt0] at hcpt
      simp at hcpt
    · -- non-root: exactly one parent, with the right span id
      intro hnroot
      have htgt1 : parentTarget (sortedKeys m0) p.2 ≠ none :=
        fun hcontra => hnroot ((rebuild_root_entry hwf hp).mpr hcontra)
      cases htv : parentTarget (sortedKeys m0) p.2 with
      | none => exact absurd htv htgt1
      | some tgt =>
        have hpc : ∃ pctx, (p.2 : SpanNode).parent_context = some pctx
            ∧ pctx.span_id = tgt ∧ tgt ∈ sortedKeys m0 := by
          unfold parentTarget at htv
          cases hpcv : (p.2 : SpanNode).parent_context with
          | none => rw [hpcv] at htv; simp at htv
          | some pctx =>
            rw [hpcv] at htv
            have htv2 : (if pctx.span_id ∈ sortedKeys m0 then some pctx.span_id
                else none) = some tgt := htv
            by_cases hin : pctx.span_id ∈ sortedKeys m0
            · rw [if_pos hin] at htv2
              have := Option.some.inj htv2
              exact ⟨pctx, rfl, this, this ▸ hin⟩
            · rw [if_neg hin] at htv2
              simp at htv2
        obtain ⟨pctx, hpcv, hpid, htgtK⟩ := hpc
        refine ⟨pctx, hpcv, ?_, ?_⟩
        · -- count = 1
          have hcongr : ∀ q ∈ (rebuildTree m0).1,
              (decide (p.1 ∈ (q.2 : SpanNode).children_ids))
                ↔ (decide (q.1 = tgt)) := by
            intro q hq
            simp only [decide_eq_true_eq]
            rw [hmemch q hq p.1]
            constructor
            · rintro ⟨c, hc, hcpt, hcid⟩
              have hcnp : c = np :=
                List.inj_on_of_nodup_map hndS hc hnp (by rw [hcid, hnpid])
              rw [hcnp] at hcpt
              rw [htgt, hcpt] at htv
              exact Option.some.inj htv
            · intro hq1
              refine ⟨np, hnp, ?_, hnpid⟩
              rw [← htgt, htv, hq1]
          rw [List.countP_congr hcongr]
          apply countP_key_eq
          · rw [rebuild_keys hwf]
            exact sortedKeys_nodup hwf
          · rw [rebuild_keys hwf]
            exact htgtK
        · -- the unique parent has the claimed span id
          intro q hq hmem
          obtain ⟨c, hc, hcpt, hcid⟩ := (hmemch q hq p.1).mp hmem
          have hcnp : c = np :=
            List.inj_on_of_nodup_map hndS hc hnp (by rw [hcid, hnpid])
          rw [hcnp] at hcpt
          rw [htgt, hcpt] at htv
          obtain ⟨nq, hnq, hnqid, hqspan, hqctx, hqch, hqpar⟩ := rebuild_entry hwf hq
          have hqsid : (q.2 : SpanNode).span_id = q.1 := by
            unfold SpanNode.span_id
            rw [hqctx]
            exact hnqid
          rw [hqsid, hpid]
          exact Option.some.inj htv

def c4Root : ReadableSpan := ⟨"root", some ⟨1, 1⟩, none, some 0, none, []⟩
def c4Kid : ReadableSpan := ⟨"kid", some ⟨1, 2⟩, some ⟨1, 1⟩, some 5, none, []⟩
def c4Lost : ReadableSpan := ⟨"lost", some ⟨1, 3⟩, some ⟨1, 77⟩, some 2, none, []⟩

/-- Witness for C4 at a concrete tree: the root key occurs in no children
list; the child key occurs in exactly one entry's children and that entry
is its parent. -/
theorem C4_witness :
    (SpanTree.build [c4Root, c4Kid, c4Lost]).elim False (fun t =>
      ∀ p ∈ t.nodes_by_id,
        (p.1 ∈ t.roots → ∀ q ∈ t.nodes_by_id, p.1 ∉ (q.2 : SpanNode).children_ids)
        ∧ (p.1 ∉ t.roots → ∃ pctx, (p.2 : SpanNode).parent_context = some pctx
            ∧ t.nodes_by_id.countP
                (fun q => decide (p.1 ∈ (q.2 : SpanNode).children_ids)) = 1
            ∧ ∀ q ∈ t.nodes_by_id, p.1 ∈ (q.2 : SpanNode).children_ids →
                (q.2 : SpanNode).span_id = pctx.span_id)) := by
  cases ht : SpanTree.build [c4Root, c4Kid, c4Lost] with
  | none =>
    have := build_isSome [c4Root, c4Kid, c4Lost] (by decide)
    rw [ht] at this
    simp at this
  | some t =>
    exact C4_parentage [c4Root, c4Kid, c4Lost] (by decide) t ht

/-- A two-element permutation, sorted by a comparison `le` that is
reflexive at `b` and strictly separates the pair (`le b a = false`), is
exactly the ordered pair. -/
theorem perm_pair_sorted (le : SpanNode → SpanNode → Bool) {l : List SpanNode}
    {a b : SpanNode}
    (hrefl : le b b = true)
    (hperm : List.Perm l [a, b])
    (hpw : l.Pairwise (fun x y => le x y = true))
    (hba : le b a = false) : l = [a, b] := by
  have hne : a ≠ b := by
    intro h
    rw [h] at hba
    rw [hba] at hrefl
    simp at hrefl
  obtain ⟨x, y, hxy⟩ := List.length_eq_two.mp hperm.length_eq
  subst hxy
  have hxm : x = a ∨ x = b := by
    have := hperm.subset (List.mem_cons_self x [y])
    simpa using this
  rcases hxm with hxa | hxb
  · subst hxa
    have h2 : List.Perm [y] [b] := hperm.cons_inv
    have hyb : y = b := by
      have := h2.subset (List.mem_cons_self y [])
      simpa using this
    rw [hyb]
  · have ham : a = y := by
      have ha : a ∈ [x, y] := hperm.mem_iff.mpr (List.mem_cons_self a [b])
      rcases List.mem_cons.mp ha with h1 | h1
      · rw [hxb] at h1
        exact absurd h1 hne
      · simpa using h1
    exfalso
    have hpair := List.pairwise_cons.mp hpw
    have hba2 := hpair.1 y (by simp)
    rw [hxb, ← ham] at hba2
    rw [hba] at hba2
    simp at hba2

/-- Shared computation for C3 (amended): in a faithful build of a parent
record and two records claiming it, with strictly increasing
*microsecond* keys, the parent's children come out in key order whichever
way the two claimers are listed. -/
theorem C3_py_helper (sP s1 s2 : ReadableSpan) (cP c1 c2 : SpanContext)
    (pc1 pc2 : SpanContext) (tP t0 t1 : Nat)
    (hPc : sP.context = some cP) (h1c : s1.context = some c1) (h2c : s2.context = some c2)
    (hne12 : c1.span_id ≠ c2.span_id) (hneP1 : cP.span_id ≠ c1.span_id)
    (hneP2 : cP.span_id ≠ c2.span_id)
    (h1p : s1.parent = some pc1) (h1pid : pc1.span_id = cP.span_id)
    (h2p : s2.parent = some pc2) (h2pid : pc2.span_id = cP.span_id)
    (hPp : ∀ pcP, sP.parent = some pcP → pcP.span_id ≠ cP.span_id)
    (hstP : sP.start_time = some tP)
    (hst1 : s1.start_time = some t0) (hst2 : s2.start_time = some t1)
    (hlt : usOfNs t0 < usOfNs t1)
    (spans : List ReadableSpan)
    (hsp : spans = [sP, s1, s2] ∨ spans = [sP, s2, s1])
    (t : SpanTree) (ht : SpanTree.buildPy spans = some t) :
    (lookupA t.nodes_by_id cP.span_id).map SpanNode.children_ids
      = some [c1.span_id, c2.span_id] := by
  have hctx : ∀ s ∈ spans, (s.context).isSome = true := by
    rcases hsp with h | h <;> subst h <;> intro s hs <;>
      rcases List.mem_cons.mp hs with h1 | h1
    · rw [h1, hPc]; rfl
    · rcases List.mem_cons.mp h1 with h2 | h2
      · rw [h2, h1c]; rfl
      · rcases List.mem_cons.mp h2 with h3 | h3
        · rw [h3, h2c]; rfl
        · simp at h3
    · rw [h1, hPc]; rfl
    · rcases List.mem_cons.mp h1 with h2 | h2
      · rw [h2, h2c]; rfl
      · rcases List.mem_cons.mp h2 with h3 | h3
        · rw [h3, h1c]; rfl
        · simp at h3
  have hidP : recordId sP = some cP.span_id := by unfold recordId; rw [hPc]; rfl
  have hid1 : recordId s1 = some c1.span_id := by unfold recordId; rw [h1c]; rfl
  have hid2 : recordId s2 = some c2.span_id := by unfold recordId; rw [h2c]; rfl
  have hnd : (spanIds spans).Nodup := by
    rcases hsp with h | h <;> subst h <;> unfold spanIds <;>
      simp only [List.filterMap_cons, hidP, hid1, hid2, List.filterMap_nil] <;>
      simp [hne12, hneP1, hneP2, hne12.symm]
  cases h0 : addNodes [] spans with
  | none =>
    have htot := addNodes_isSome spans [] hctx
    rw [h0] at htot
    simp at htot
  | some m0 =>
    have hwf : NodeMapWF m0 := addNodes_WF spans [] m0 nodeMapWF_nil h0
    have hmixs : mixedStarts spans = false := by
      rcases hsp with h | h <;> subst h <;> simp [mixedStarts, hstP, hst1, hst2]
    have hmixv : mixedStartTimes (m0.map Prod.snd) = false := by
      rw [mixed_values hctx hnd h0]
      exact hmixs
    have hteq : t = ⟨(attachPhase (pySortedNodes m0)).1, (attachPhase (pySortedNodes m0)).2⟩ := by
      have := buildPy_eq h0 hmixv
      rw [ht] at this
      exact Option.some.inj this
    subst hteq
    have hPin : cP.span_id ∈ spanIds spans := by
      rcases hsp with h | h <;> subst h <;> unfold spanIds <;>
        simp only [List.filterMap_cons, hidP, hid1, hid2, List.filterMap_nil] <;> simp
    have hPK : cP.span_id ∈ pySortedKeys m0 := by
      rw [pySortedKeys_mem hwf, addNodes_mem_keys spans [] m0 h0]
      simp [hPin]
    -- the parent's entry
    have hPs : sP ∈ spans := by
      rcases hsp with h | h <;> subst h <;> simp
    have hlast := lastWith_of_nodup hnd hPs hidP
    have hlook0 : lookupA m0 cP.span_id = some ⟨sP, cP, none, []⟩ := by
      rw [addNodes_lookupA spans [] m0 h0 cP.span_id, hlast]
      exact ofSpan_of_context hPc
    have hlook : lookupA (attachPhase (pySortedNodes m0)).1 cP.span_id
        = some (attachResult (pySortedKeys m0) (pySortedNodes m0) cP.span_id
            ⟨sP, cP, none, []⟩) := by
      rw [pyRebuild_lookup hwf, py_pairs_lookup_m0 hwf, hlook0]
      rfl
    show (lookupA (attachPhase (pySortedNodes m0)).1 cP.span_id).map SpanNode.children_ids = _
    rw [hlook]
    show some ((attachResult (pySortedKeys m0) (pySortedNodes m0) cP.span_id
        (⟨sP, cP, none, []⟩ : SpanNode)).children_ids) = _
    rw [attachResult_children]
    show some (childrenOf (pySortedKeys m0) (pySortedNodes m0) cP.span_id) = _
    -- the claimer nodes
    have hm0 : m0 = spans.filterMap freshEntry := by
      have hap := addNodes_eq_append spans [] hctx hnd
        (fun k _ => by simp [hasKeyA, lookupA])
      rw [h0] at hap
      have := Option.some.inj hap
      rw [List.nil_append] at this
      exact this
    have hfP : freshEntry sP = some (cP.span_id, ⟨sP, cP, none, []⟩) := by
      unfold freshEntry
      rw [ofSpan_of_context hPc]
      rfl
    have hf1 : freshEntry s1 = some (c1.span_id, ⟨s1, c1, none, []⟩) := by
      unfold freshEntry
      rw [ofSpan_of_context h1c]
      rfl
    have hf2 : freshEntry s2 = some (c2.span_id, ⟨s2, c2, none, []⟩) := by
      unfold freshEntry
      rw [ofSpan_of_context h2c]
      rfl
    -- predicate values on the three fresh nodes
    have hpredP : decide (parentTarget (pySortedKeys m0) ⟨sP, cP, none, []⟩
        = some cP.span_id) = false := by
      rw [decide_eq_false_iff_not]
      unfold parentTarget SpanNode.parent_context
      show ¬ ((match sP.parent with
        | none => none
        | some pctx => if pctx.span_id ∈ pySortedKeys m0 then some pctx.span_id else none)
          = some cP.span_id)
      cases hp : sP.parent with
      | none => simp
      | some pcP =>
        show ¬ ((if pcP.span_id ∈ pySortedKeys m0 then some pcP.span_id else none)
          = some cP.span_id)
        by_cases hin : pcP.span_id ∈ pySortedKeys m0
        · rw [if_pos hin]
          intro hcontra
          exact hPp pcP hp (Option.some.inj hcontra)
        · rw [if_neg hin]
          simp
    have hpred1 : decide (parentTarget (pySortedKeys m0) ⟨s1, c1, none, []⟩
        = some cP.span_id) = true := by
      rw [decide_eq_true_eq]
      unfold parentTarget SpanNode.parent_context
      show (match s1.parent with
        | none => none
        | some pctx => if pctx.span_id ∈ pySortedKeys m0 then some pctx.span_id else none)
          = some cP.span_id
      rw [h1p]
      show (if pc1.span_id ∈ pySortedKeys m0 then some pc1.span_id else none)
        = some cP.span_id
      rw [h1pid, if_pos hPK]
    have hpred2 : decide (parentTarget (pySortedKeys m0) ⟨s2, c2, none, []⟩
        = some cP.span_id) = true := by
      rw [decide_eq_true_eq]
      unfold parentTarget SpanNode.parent_context
      show (match s2.parent with
        | none => none
        | some pctx => if pctx.span_id ∈ pySortedKeys m0 then some pctx.span_id else none)
          = some cP.span_id
      rw [h2p]
      show (if pc2.span_id ∈ pySortedKeys m0 then some pc2.span_id else none)
        = some cP.span_id
      rw [h2pid, if_pos hPK]
    -- the filtered claimer list is the strictly ordered pair
    have hfilter : (pySortedNodes m0).filter
        (fun c => decide (parentTarget (pySortedKeys m0) c = some cP.span_id))
        = [⟨s1, c1, none, []⟩, ⟨s2, c2, none, []⟩] := by
      apply perm_pair_sorted pyNodeLE
      · exact keyLE_refl _
      · have hperm0 := (pySortedNodes_perm m0).filter
          (fun c => decide (parentTarget (pySortedKeys m0) c = some cP.span_id))
        rcases hsp with h | h
        · have hvals : m0.map Prod.snd
              = [(⟨sP, cP, none, []⟩ : SpanNode), ⟨s1, c1, none, []⟩, ⟨s2, c2, none, []⟩] := by
            rw [hm0, h]
            simp only [List.filterMap_cons, hfP, hf1, hf2, List.filterMap_nil]
            rfl
          rw [hvals, List.filter_cons_of_neg (by simp [hpredP]),
              List.filter_cons_of_pos (by simp [hpred1]),
              List.filter_cons_of_pos (by simp [hpred2]),
              List.filter_nil] at hperm0
          exact hperm0
        · have hvals : m0.map Prod.snd
              = [(⟨sP, cP, none, []⟩ : SpanNode), ⟨s2, c2, none, []⟩, ⟨s1, c1, none, []⟩] := by
            rw [hm0, h]
            simp only [List.filterMap_cons, hfP, hf1, hf2, List.filterMap_nil]
            rfl
          rw [hvals, List.filter_cons_of_neg (by simp [hpredP]),
              List.filter_cons_of_pos (by simp [hpred2]),
              List.filter_cons_of_pos (by simp [hpred1]),
              List.filter_nil] at hperm0
          exact hperm0.trans (List.Perm.swap _ _ _)
      · exact List.Pairwise.sublist (List.filter_sublist _)
          (List.sorted_mergeSort pyNodeLE_trans pyNodeLE_total (m0.map Prod.snd))
      · show pyNodeLE ⟨s2, c2, none, []⟩ ⟨s1, c1, none, []⟩ = false
        unfold pyNodeLE SpanNode.pyStartKey
        show keyLE (s2.start_time.map usOfNs) (s1.start_time.map usOfNs) = false
        rw [hst1, hst2]
        show keyLE (some (usOfNs t1)) (some (usOfNs t0)) = false
        unfold keyLE
        simp
        omega
    unfold childrenOf
    rw [hfilter]
    rfl

/-- C3 (amended): child order under the faithful build is determined by
the *microsecond* sort keys.  For two records R1 (start `t0`) and R2
(start `t1`) that both name the same present record P as parent, with
`usOfNs t0 < usOfNs t1` (their start times fall in distinct microseconds)
and the parent also carrying a start time (else the sort raises),
building from `[P, R1, R2]` and from `[P, R2, R1]` both yield
`P.children == [node(R1), node(R2)]` (children keyed by span id, in id
form).  When the two start times round to the same microsecond this
determinism fails — see the counterexample. -/
theorem C3_us_determinism (sP s1 s2 : ReadableSpan) (cP c1 c2 pc1 pc2 : SpanContext)
    (tP t0 t1 : Nat)
    (hPc : sP.context = some cP) (h1c : s1.context = some c1) (h2c : s2.context = some c2)
    (hne12 : c1.span_id ≠ c2.span_id) (hneP1 : cP.span_id ≠ c1.span_id)
    (hneP2 : cP.span_id ≠ c2.span_id)
    (h1p : s1.parent = some pc1) (h1pid : pc1.span_id = cP.span_id)
    (h2p : s2.parent = some pc2) (h2pid : pc2.span_id = cP.span_id)
    (hPp : ∀ pcP, sP.parent = some pcP → pcP.span_id ≠ cP.span_id)
    (hstP : sP.start_time = some tP)
    (hst1 : s1.start_time = some t0) (hst2 : s2.start_time = some t1)
    (hlt : usOfNs t0 < usOfNs t1)
    (tA tB : SpanTree)
    (htA : SpanTree.buildPy [sP, s1, s2] = some tA)
    (htB : SpanTree.buildPy [sP, s2, s1] = some tB) :
    ((lookupA tA.nodes_by_id cP.span_id).map SpanNode.children_ids
        = some [c1.span_id, c2.span_id])
    ∧ ((lookupA tB.nodes_by_id cP.span_id).map SpanNode.children_ids
        = some [c1.span_id, c2.span_id]) :=
  ⟨C3_py_helper sP s1 s2 cP c1 c2 pc1 pc2 tP t0 t1 hPc h1c h2c hne12 hneP1 hneP2
      h1p h1pid h2p h2pid hPp hstP hst1 hst2 hlt [sP, s1, s2] (Or.inl rfl) tA htA,
   C3_py_helper sP s1 s2 cP c1 c2 pc1 pc2 tP t0 t1 hPc h1c h2c hne12 hneP1 hneP2
      h1p h1pid h2p h2pid hPp hstP hst1 hst2 hlt [sP, s2, s1] (Or.inr rfl) tB htB⟩

def c3P : ReadableSpan := ⟨"P", some ⟨1, 1⟩, none, some 0, none, []⟩
def c3R1 : ReadableSpan := ⟨"R1", some ⟨1, 2⟩, some ⟨1, 1⟩, some 5, none, []⟩
def c3R2 : ReadableSpan := ⟨"R2", some ⟨1, 3⟩, some ⟨1, 1⟩, some 9, none, []⟩
def c3PNode : SpanNode := ⟨c3P, ⟨1, 1⟩, none, []⟩
def c3R1Node : SpanNode := ⟨c3R1, ⟨1, 2⟩, none, []⟩
def c3R2Node : SpanNode := ⟨c3R2, ⟨1, 3⟩, none, []⟩

/-- C3 counterexample: R1 starts at 5 ns and R2 at 9 ns — distinct start
times in the same microsecond, so the code's sort keys are equal and the
stable sort keeps input order.  Input `[P, R1, R2]` gives P the children
`[2, 3]` but input `[P, R2, R1]` gives `[3, 2]`: child order depends on
input order, refuting the claim that it is determined by start time
alone. -/
theorem C3_counterexample :
    ((SpanTree.buildPy [c3P, c3R1, c3R2]).map
        (fun t => (lookupA t.nodes_by_id 1).map SpanNode.children_ids)
      = some (some [2, 3]))
    ∧ ((SpanTree.buildPy [c3P, c3R2, c3R1]).map
        (fun t => (lookupA t.nodes_by_id 1).map SpanNode.children_ids)
      = some (some [3, 2])) := by
  constructor
  · have hadd : addNodes [] [c3P, c3R1, c3R2]
        = some [(1, c3PNode), (2, c3R1Node), (3, c3R2Node)] := rfl
    rw [buildPy_eq hadd (by decide)]
    unfold pySortedNodes
    have hv : ([(1, c3PNode), (2, c3R1Node), (3, c3R2Node)] : NodeMap).map Prod.snd
        = [c3PNode, c3R1Node, c3R2Node] := rfl
    rw [hv, mergeSort_const_key 0 [c3PNode, c3R1Node, c3R2Node] (by decide)]
    decide
  · have hadd : addNodes [] [c3P, c3R2, c3R1]
        = some [(1, c3PNode), (3, c3R2Node), (2, c3R1Node)] := rfl
    rw [buildPy_eq hadd (by decide)]
    unfold pySortedNodes
    have hv : ([(1, c3PNode), (3, c3R2Node), (2, c3R1Node)] : NodeMap).map Prod.snd
        = [c3PNode, c3R2Node, c3R1Node] := rfl
    rw [hv, mergeSort_const_key 0 [c3PNode, c3R2Node, c3R1Node] (by decide)]
    decide

def c3Q1 : ReadableSpan := ⟨"Q1", some ⟨1, 2⟩, some ⟨1, 1⟩, some 5, none, []⟩
def c3Q2 : ReadableSpan := ⟨"Q2", some ⟨1, 3⟩, some ⟨1, 1⟩, some 2000, none, []⟩

/-- Witness for C3 (amended) at concrete records whose start times fall in
distinct microseconds (5 ns rounds to 0, 2000 ns to 2): both input orders
give P the children `[2, 3]`. -/
theorem C3_witness :
    ((SpanTree.buildPy [c3P, c3Q1, c3Q2]).elim False (fun tA =>
      (lookupA tA.nodes_by_id 1).map SpanNode.children_ids = some [2, 3]))
    ∧ ((SpanTree.buildPy [c3P, c3Q2, c3Q1]).elim False (fun tB =>
      (lookupA tB.nodes_by_id 1).map SpanNode.children_ids = some [2, 3])) := by
  cases htA : SpanTree.buildPy [c3P, c3Q1, c3Q2] with
  | none =>
    have := buildPy_isSome [c3P, c3Q1, c3Q2] (by decide) (by decide) (by decide)
    rw [htA] at this
    simp at this
  | some tA =>
    cases htB : SpanTree.buildPy [c3P, c3Q2, c3Q1] with
    | none =>
      have := buildPy_isSome [c3P, c3Q2, c3Q1] (by decide) (by decide) (by decide)
      rw [htB] at this
      simp at this
    | some tB =>
      have h := C3_us_determinism c3P c3Q1 c3Q2 ⟨1, 1⟩ ⟨1, 2⟩ ⟨1, 3⟩ ⟨1, 1⟩ ⟨1, 1⟩ 0 5 2000
        rfl rfl rfl (by decide) (by decide) (by decide)
        rfl rfl rfl rfl (by intro pcP hcontra; simp [c3P] at hcontra)
        rfl rfl rfl (by decide) tA tB htA htB
      exact ⟨h.1, h.2⟩

/-! ## Lemmas: rendered line classification and tag counting -/

theorem stripSpaces_cons (c : Char) (w : List Char) :
    stripSpaces (c :: w) = if c = ' ' then stripSpaces w else c :: w := rfl

theorem stripSpaces_indent (l : String) :
    stripSpaces (("  " ++ l).data) = stripSpaces l.data := by
  rw [String.data_append]
  show stripSpaces (' ' :: ' ' :: l.data) = stripSpaces l.data
  rw [stripSpaces_cons, if_pos rfl, stripSpaces_cons, if_pos rfl]

theorem isOpenNodeLine_indent (l : String) :
    isOpenNodeLine ("  " ++ l) = isOpenNodeLine l := by
  unfold isOpenNodeLine
  rw [stripSpaces_indent]

theorem isCloseNodeLine_indent (l : String) :
    isCloseNodeLine ("  " ++ l) = isCloseNodeLine l := by
  unfold isCloseNodeLine
  rw [stripSpaces_indent]

theorem isTreeOpenLine_indent (l : String) :
    isTreeOpenLine ("  " ++ l) = isTreeOpenLine l := by
  unfold isTreeOpenLine
  rw [stripSpaces_indent]

theorem joinSpace_first (s : String) (rest : List String) :
    ∃ z : List Char, (joinSpace (("<SpanNode name=" ++ s) :: rest)).data
      = "<SpanNode name=".data ++ z := by
  cases rest with
  | nil =>
    refine ⟨s.data, ?_⟩
    show ("<SpanNode name=" ++ s).data = _
    rw [String.data_append]
  | cons r rs =>
    refine ⟨s.data ++ (" " ++ joinSpace (r :: rs)).data, ?_⟩
    show (("<SpanNode name=" ++ s) ++ " " ++ joinSpace (r :: rs)).data = _
    simp [String.data_append, List.append_assoc]

theorem stripSpaces_pre (z : List Char) :
    stripSpaces ("<SpanNode name=".data ++ z) = "<SpanNode name=".data ++ z := by
  have h : "<SpanNode name=".data = '<' :: "SpanNode name=".data := rfl
  rw [h, List.cons_append, stripSpaces_cons, if_neg (by decide)]

theorem isOpen_joinSpace (s : String) (rest : List String) :
    isOpenNodeLine (joinSpace (("<SpanNode name=" ++ s) :: rest)) = true := by
  obtain ⟨z, hz⟩ := joinSpace_first s rest
  unfold isOpenNodeLine
  rw [hz, stripSpaces_pre]
  rw [List.isPrefixOf_iff_prefix]
  exact List.IsPrefix.trans (by decide) (List.prefix_append _ _)

theorem isClose_joinSpace (s : String) (rest : List String) :
    isCloseNodeLine (joinSpace (("<SpanNode name=" ++ s) :: rest)) = false := by
  obtain ⟨z, hz⟩ := joinSpace_first s rest
  unfold isCloseNodeLine
  rw [hz, stripSpaces_pre]
  simp only [decide_eq_false_iff_not]
  intro h
  have hp : List.IsPrefix "<SpanNode name=".data "</SpanNode>".data := ⟨z, h⟩
  exact absurd hp (by decide)

theorem isTreeOpen_joinSpace (s : String) (rest : List String) :
    isTreeOpenLine (joinSpace (("<SpanNode name=" ++ s) :: rest)) = false := by
  obtain ⟨z, hz⟩ := joinSpace_first s rest
  unfold isTreeOpenLine
  rw [hz, stripSpaces_pre]
  simp only [decide_eq_false_iff_not]
  intro h
  have hp : List.IsPrefix "<SpanNode name=".data "<SpanTree>".data := ⟨z, h⟩
  exact absurd hp (by decide)

theorem isOpen_closeTag : isOpenNodeLine "</SpanNode>" = false := by decide

theorem isClose_closeTag : isCloseNodeLine "</SpanNode>" = true := by decide

theorem isTreeOpen_closeTag : isTreeOpenLine "</SpanNode>" = false := by decide

theorem countP_flatten {α : Type} (p : α → Bool) (L : List (List α)) :
    (L.flatten).countP p = (L.map (List.countP p)).sum := by
  induction L with
  | nil => rfl
  | cons l rest ih =>
    rw [List.flatten_cons, List.countP_append, List.map_cons, List.sum_cons, ih]

/-- With `include_children=True`, each rendered block contains exactly one
opening `<SpanNode` line per node of the fuel-bounded expansion and one
`</SpanNode>` line per expansion node with at least one child. -/
theorem nodeLines_counts (m : NodeMap) (i2 i3 i4 i5 : Bool) :
    ∀ (fuel : Nat) (n : SpanNode),
      ((nodeLines m true i2 i3 i4 i5 fuel n).countP isOpenNodeLine
          = subtreeCount m fuel n)
      ∧ ((nodeLines m true i2 i3 i4 i5 fuel n).countP isCloseNodeLine
          = closedCount m fuel n) := by
  intro fuel
  induction fuel with
  | zero => intro n; exact ⟨rfl, rfl⟩
  | succ f ih =>
    intro n
    obtain ⟨prest, hparts⟩ : ∃ rest, n.firstLineParts i2 i3 i4 i5
        = ("<SpanNode name=" ++ pyRepr n.name) :: rest := ⟨_, rfl⟩
    have hEq : nodeLines m true i2 i3 i4 i5 (f + 1) n
        = (if !(n.children_ids.filterMap (lookupA m)).isEmpty then
            joinSpace (n.firstLineParts i2 i3 i4 i5 ++ [">"]) ::
              (((n.children_ids.filterMap (lookupA m)).map
                  (fun c => (nodeLines m true i2 i3 i4 i5 f c).map
                    (fun l => "  " ++ l))).flatten
              ++ ["</SpanNode>"])
          else [joinSpace (n.firstLineParts i2 i3 i4 i5
              ++ (if !(n.children_ids.filterMap (lookupA m)).isEmpty then ["children=..."]
                  else []) ++ ["/>"])]) := rfl
    have hsub : subtreeCount m (f + 1) n
        = 1 + (((n.children_ids.filterMap (lookupA m)).map (subtreeCount m f)).sum) := rfl
    have hclo : closedCount m (f + 1) n
        = (if (n.children_ids.filterMap (lookupA m)).isEmpty then 0 else 1)
          + (((n.children_ids.filterMap (lookupA m)).map (closedCount m f)).sum) := rfl
    by_cases hemp : (n.children_ids.filterMap (lookupA m)).isEmpty
    · have hnil : n.children_ids.filterMap (lookupA m) = [] := by
        simpa using hemp
      rw [hEq, if_neg (by simp [hemp]), if_neg (by simp [hemp]), hparts,
        List.cons_append, List.cons_append]
      constructor
      · rw [List.countP_cons, List.countP_nil, isOpen_joinSpace, hsub, hnil]
        simp
      · rw [List.countP_cons, List.countP_nil, isClose_joinSpace, hclo, hnil]
        simp
    · rw [hEq, if_pos (by simp [hemp]), hparts, List.cons_append]
      have hmapo : (((n.children_ids.filterMap (lookupA m)).map
            (fun c => (nodeLines m true i2 i3 i4 i5 f c).map
              (fun l => "  " ++ l))).map (List.countP isOpenNodeLine)).sum
          = ((n.children_ids.filterMap (lookupA m)).map (subtreeCount m f)).sum := by
        rw [List.map_map]
        apply congrArg List.sum
        apply List.map_congr_left
        intro c _
        show ((nodeLines m true i2 i3 i4 i5 f c).map
          (fun l => "  " ++ l)).countP isOpenNodeLine = subtreeCount m f c
        rw [List.countP_map]
        rw [List.countP_congr (fun l _ => by
          show ((isOpenNodeLine ∘ fun l => "  " ++ l) l = true) ↔ (isOpenNodeLine l = true)
          rw [Function.comp_apply, isOpenNodeLine_indent])]
        exact (ih c).1
      have hmapc : (((n.children_ids.filterMap (lookupA m)).map
            (fun c => (nodeLines m true i2 i3 i4 i5 f c).map
              (fun l => "  " ++ l))).map (List.countP isCloseNodeLine)).sum
          = ((n.children_ids.filterMap (lookupA m)).map (closedCount m f)).sum := by
        rw [List.map_map]
        apply congrArg List.sum
        apply List.map_congr_left
        intro c _
        show ((nodeLines m true i2 i3 i4 i5 f c).map
          (fun l => "  " ++ l)).countP isCloseNodeLine = closedCount m f c
        rw [List.countP_map]
        rw [List.countP_congr (fun l _ => by
          show ((isCloseNodeLine ∘ fun l => "  " ++ l) l = true) ↔ (isCloseNodeLine l = true)
          rw [Function.comp_apply, isCloseNodeLine_indent])]
        exact (ih c).2
      constructor
      · rw [List.countP_cons, List.countP_append, countP_flatten, hmapo,
          List.countP_cons, List.countP_nil, isOpen_joinSpace, isOpen_closeTag, hsub]
        simp
        omega
      · rw [List.countP_cons, List.countP_append, countP_flatten, hmapc,
          List.countP_cons, List.countP_nil, isClose_joinSpace, isClose_closeTag, hclo,
          if_neg hemp]
        simp
        omega

theorem isTreeOpen_of_open {l : String} (h : isOpenNodeLine l = true) :
    isTreeOpenLine l = false := by
  unfold isTreeOpenLine
  simp only [decide_eq_false_iff_not]
  intro heq
  unfold isOpenNodeLine at h
  rw [heq] at h
  exact absurd h (by decide)

theorem isTreeOpen_of_close {l : String} (h : isCloseNodeLine l = true) :
    isTreeOpenLine l = false := by
  unfold isTreeOpenLine
  simp only [decide_eq_false_iff_not]
  intro heq
  unfold isCloseNodeLine at h
  rw [heq] at h
  exact absurd h (by decide)

/-- Every line of a rendered node block is an opening or a closing
`SpanNode` tag line. -/
theorem nodeLines_classify (m : NodeMap) (i2 i3 i4 i5 : Bool) :
    ∀ (fuel : Nat) (n : SpanNode) (l : String),
      l ∈ nodeLines m true i2 i3 i4 i5 fuel n →
      isOpenNodeLine l = true ∨ isCloseNodeLine l = true := by
  intro fuel
  induction fuel with
  | zero =>
    intro n l hl
    simp [nodeLines] at hl
  | succ f ih =>
    intro n l hl
    obtain ⟨prest, hparts⟩ : ∃ rest, n.firstLineParts i2 i3 i4 i5
        = ("<SpanNode name=" ++ pyRepr n.name) :: rest := ⟨_, rfl⟩
    have hEq : nodeLines m true i2 i3 i4 i5 (f + 1) n
        = (if !(n.children_ids.filterMap (lookupA m)).isEmpty then
            joinSpace (n.firstLineParts i2 i3 i4 i5 ++ [">"]) ::
              (((n.children_ids.filterMap (lookupA m)).map
                  (fun c => (nodeLines m true i2 i3 i4 i5 f c).map
                    (fun l => "  " ++ l))).flatten
              ++ ["</SpanNode>"])
          else [joinSpace (n.firstLineParts i2 i3 i4 i5
              ++ (if !(n.children_ids.filterMap (lookupA m)).isEmpty then ["children=..."]
                  else []) ++ ["/>"])]) := rfl
    rw [hEq] at hl
    by_cases hemp : (n.children_ids.filterMap (lookupA m)).isEmpty
    · rw [if_neg (by simp [hemp]), if_neg (by simp [hemp])] at hl
      have hleq : l = joinSpace (n.firstLineParts i2 i3 i4 i5 ++ [] ++ ["/>"]) := by
        simpa using hl
      rw [hleq, hparts, List.cons_append, List.cons_append]
      left
      exact isOpen_joinSpace _ _
    · rw [if_pos (by simp [hemp])] at hl
      rcases List.mem_cons.mp hl with h1 | h1
      · rw [h1, hparts, List.cons_append]
        left
        exact isOpen_joinSpace _ _
      · rcases List.mem_append.mp h1 with h2 | h2
        · obtain ⟨blk, hblk, hlblk⟩ := List.mem_flatten.mp h2
          obtain ⟨c, hc, hbdef⟩ := List.mem_map.mp hblk
          rw [← hbdef] at hlblk
          obtain ⟨l0, hl0, hldef⟩ := List.mem_map.mp hlblk
          rcases ih c l0 hl0 with h | h
          · left
            rw [← hldef, isOpenNodeLine_indent]
            exact h
          · right
            rw [← hldef, isCloseNodeLine_indent]
            exact h
        · have hleq : l = "</SpanNode>" := by simpa using h2
          right
          rw [hleq]
          exact isClose_closeTag

theorem countP_indent_block (p : String → Bool)
    (hp : ∀ l, p ("  " ++ l) = p l) (ls : List String) :
    (ls.map (fun l => "  " ++ l)).countP p = ls.countP p := by
  rw [List.countP_map]
  apply List.countP_congr
  intro l _
  show ((p ∘ fun l => "  " ++ l) l = true) ↔ (p l = true)
  rw [Function.comp_apply, hp]

theorem mapFlatten {α β : Type} (f : α → β) (L : List (List α)) :
    L.flatten.map f = (L.map (List.map f)).flatten := by
  induction L with
  | nil => rfl
  | cons x xs ih => simp [List.flatten_cons, List.map_append, ih]

theorem strAppendAssoc (a b c : String) : a ++ b ++ c = a ++ (b ++ c) := by
  apply String.ext
  rw [String.data_append, String.data_append, String.data_append, String.data_append,
    List.append_assoc]

theorem specIndent_succ (d : Nat) : specIndent (d + 1) = specIndent d ++ "  " := by
  unfold specIndent
  rw [Nat.mul_succ, List.replicate_add]
  rfl

/-- The source renderer, which indents by wrapping every child block with
`indent(..., '  ')` at each level, produces exactly the spec's layout: at
depth `d` each line carries a flat `2*d`-space prefix, children sit at
depth `d + 1`. -/
theorem specNodeLines_eq (m : NodeMap) (i1 i2 i3 i4 i5 : Bool) :
    ∀ (fuel d : Nat) (n : SpanNode),
      specNodeLines m i1 i2 i3 i4 i5 fuel d n
        = (nodeLines m i1 i2 i3 i4 i5 fuel n).map (fun l => specIndent d ++ l) := by
  intro fuel
  induction fuel with
  | zero =>
    intro d n
    rfl
  | succ f ih =>
    intro d n
    have hEq : nodeLines m i1 i2 i3 i4 i5 (f + 1) n
        = (if i1 && !(n.children_ids.filterMap (lookupA m)).isEmpty then
            joinSpace (n.firstLineParts i2 i3 i4 i5 ++ [">"]) ::
              (((n.children_ids.filterMap (lookupA m)).map
                  (fun c => (nodeLines m i1 i2 i3 i4 i5 f c).map
                    (fun l => "  " ++ l))).flatten
              ++ ["</SpanNode>"])
          else [joinSpace (n.firstLineParts i2 i3 i4 i5
              ++ (if !(n.children_ids.filterMap (lookupA m)).isEmpty then ["children=..."]
                  else []) ++ ["/>"])]) := rfl
    have hEq2 : specNodeLines m i1 i2 i3 i4 i5 (f + 1) d n
        = (if i1 && !(n.children_ids.filterMap (lookupA m)).isEmpty then
            (specIndent d ++ joinSpace (n.firstLineParts i2 i3 i4 i5 ++ [">"])) ::
              (((n.children_ids.filterMap (lookupA m)).map
                  (specNodeLines m i1 i2 i3 i4 i5 f (d + 1))).flatten
              ++ [specIndent d ++ "</SpanNode>"])
          else [specIndent d ++ joinSpace (n.firstLineParts i2 i3 i4 i5
              ++ (if !(n.children_ids.filterMap (lookupA m)).isEmpty then ["children=..."]
                  else []) ++ ["/>"])]) := rfl
    rw [hEq, hEq2]
    by_cases hc : (i1 && !(n.children_ids.filterMap (lookupA m)).isEmpty) = true
    · rw [if_pos hc, if_pos hc, List.map_cons, List.map_append]
      congr 1
      congr 1
      · rw [mapFlatten, List.map_map]
        apply congrArg List.flatten
        apply List.map_congr_left
        intro c _
        rw [ih (d + 1) c]
        show (nodeLines m i1 i2 i3 i4 i5 f c).map (fun l => specIndent (d + 1) ++ l)
          = ((nodeLines m i1 i2 i3 i4 i5 f c).map (fun l => "  " ++ l)).map
              (fun l => specIndent d ++ l)
        rw [List.map_map]
        apply List.map_congr_left
        intro l _
        show specIndent (d + 1) ++ l = specIndent d ++ ("  " ++ l)
        rw [specIndent_succ, strAppendAssoc]
    · rw [if_neg hc, if_neg hc]
      rfl

/-- The two whole-tree renderers agree: the source's
`textwrap.indent`-based output is the spec's two-spaces-per-level
layout. -/
theorem specRenderLines_eq (t : SpanTree) (i1 i2 i3 i4 i5 : Bool) :
    t.reprXmlLines i1 i2 i3 i4 i5 = t.specRenderLines i1 i2 i3 i4 i5 := by
  unfold SpanTree.reprXmlLines SpanTree.specRenderLines
  congr 1
  congr 1
  apply congrArg List.flatten
  apply List.map_congr_left
  intro r _
  rw [specNodeLines_eq]
  apply List.map_congr_left
  intro l _
  show "  " ++ l = specIndent 1 ++ l
  rfl

/-- C9 (amended): the full rendering of any tree, as its line list,
contains exactly one `<SpanTree>` opening line; its number of opening
`<SpanNode` lines equals the total size of the root expansions (the
nodes reachable from the roots, counted by `subtreeCount`); its number of
`</SpanNode>` closing lines equals the number of expansion nodes with at
least one child; the layout is the spec's nesting — children indented by
exactly two spaces per level (`specRenderLines`, the renderer written
from the spec's words with an explicit `2*depth`-space prefix); and
whenever the root expansions cover all of `nodes_by_id` (no parent cycle,
the case the original claim intends), the opening-tag count is exactly
the node count N.  Rendering is embedded as a pure function of the tree —
the Python method reads the object graph and mutates nothing, so the
embedding gives it no state to thread. -/
theorem C9_render_tags (t : SpanTree) :
    ((t.reprXmlLines true false false false false).countP isTreeOpenLine = 1)
    ∧ ((t.reprXmlLines true false false false false).countP isOpenNodeLine
        = (t.rootNodes.map
            (subtreeCount t.nodes_by_id (t.nodes_by_id.length + 1))).sum)
    ∧ ((t.reprXmlLines true false false false false).countP isCloseNodeLine
        = (t.rootNodes.map
            (closedCount t.nodes_by_id (t.nodes_by_id.length + 1))).sum)
    ∧ (t.reprXmlLines true false false false false
        = t.specRenderLines true false false false false)
    ∧ ((t.rootNodes.map (subtreeCount t.nodes_by_id (t.nodes_by_id.length + 1))).sum
          = t.nodes_by_id.length →
        (t.reprXmlLines true false false false false).countP isOpenNodeLine
          = t.nodes_by_id.length) := by
  have hEq : t.reprXmlLines true false false false false
      = "<SpanTree>" ::
          ((t.rootNodes.map (fun r =>
            (nodeLines t.nodes_by_id true false false false false
                (t.nodes_by_id.length + 1) r).map (fun l => "  " ++ l))).flatten
          ++ ["</SpanTree>"]) := rfl
  have hopen : (t.reprXmlLines true false false false false).countP isOpenNodeLine
      = (t.rootNodes.map
          (subtreeCount t.nodes_by_id (t.nodes_by_id.length + 1))).sum := by
    rw [hEq, List.countP_cons, List.countP_append, countP_flatten,
      List.countP_cons, List.countP_nil]
    have hblocks : ((t.rootNodes.map (fun r =>
        (nodeLines t.nodes_by_id true false false false false
            (t.nodes_by_id.length + 1) r).map (fun l => "  " ++ l))).map
          (List.countP isOpenNodeLine)).sum
        = (t.rootNodes.map
            (subtreeCount t.nodes_by_id (t.nodes_by_id.length + 1))).sum := by
      rw [List.map_map]
      apply congrArg List.sum
      apply List.map_congr_left
      intro r _
      show ((nodeLines t.nodes_by_id true false false false false
          (t.nodes_by_id.length + 1) r).map (fun l => "  " ++ l)).countP isOpenNodeLine
        = subtreeCount t.nodes_by_id (t.nodes_by_id.length + 1) r
      rw [countP_indent_block _ isOpenNodeLine_indent]
      exact (nodeLines_counts t.nodes_by_id false false false false
        (t.nodes_by_id.length + 1) r).1
    rw [hblocks]
    have h1 : isOpenNodeLine "<SpanTree>" = false := by decide
    have h2 : isOpenNodeLine "</SpanTree>" = false := by decide
    rw [h1, h2]
    simp
  refine ⟨?_, hopen, ?_, specRenderLines_eq t true false false false false, ?_⟩
  · rw [hEq, List.countP_cons, List.countP_append, countP_flatten,
      List.countP_cons, List.countP_nil]
    have hblocks : ((t.rootNodes.map (fun r =>
        (nodeLines t.nodes_by_id true false false false false
            (t.nodes_by_id.length + 1) r).map (fun l => "  " ++ l))).map
          (List.countP isTreeOpenLine)).sum = 0 := by
      have hz : ∀ blk ∈ (t.rootNodes.map (fun r =>
          (nodeLines t.nodes_by_id true false false false false
              (t.nodes_by_id.length + 1) r).map (fun l => "  " ++ l))),
          List.countP isTreeOpenLine blk = 0 := by
        intro blk hblk
        obtain ⟨r, hr, hbdef⟩ := List.mem_map.mp hblk
        rw [← hbdef, countP_indent_block _ isTreeOpenLine_indent]
        rw [List.countP_eq_zero]
        intro l hl
        rcases nodeLines_classify t.nodes_by_id false false false false
            (t.nodes_by_id.length + 1) r l hl with h | h
        · rw [isTreeOpen_of_open h]
          simp
        · rw [isTreeOpen_of_close h]
          simp
      refine List.sum_eq_zero ?_
      intro x hx
      obtain ⟨blk, hblk, hxdef⟩ := List.mem_map.mp hx
      rw [← hxdef]
      exact hz blk hblk
    rw [hblocks]
    have h1 : isTreeOpenLine "<SpanTree>" = true := by decide
    have h2 : isTreeOpenLine "</SpanTree>" = false := by decide
    rw [h1, h2]
    simp
  · rw [hEq, List.countP_cons, List.countP_append, countP_flatten,
      List.countP_cons, List.countP_nil]
    have hblocks : ((t.rootNodes.map (fun r =>
        (nodeLines t.nodes_by_id true false false false false
            (t.nodes_by_id.length + 1) r).map (fun l => "  " ++ l))).map
          (List.countP isCloseNodeLine)).sum
        = (t.rootNodes.map
            (closedCount t.nodes_by_id (t.nodes_by_id.length + 1))).sum := by
      rw [List.map_map]
      apply congrArg List.sum
      apply List.map_congr_left
      intro r _
      show ((nodeLines t.nodes_by_id true false false false false
          (t.nodes_by_id.length + 1) r).map (fun l => "  " ++ l)).countP isCloseNodeLine
        = closedCount t.nodes_by_id (t.nodes_by_id.length + 1) r
      rw [countP_indent_block _ isCloseNodeLine_indent]
      exact (nodeLines_counts t.nodes_by_id false false false false
        (t.nodes_by_id.length + 1) r).2
    rw [hblocks]
    have h1 : isCloseNodeLine "<SpanTree>" = false := by decide
    have h2 : isCloseNodeLine "</SpanTree>" = false := by decide
    rw [h1, h2]
    simp
  · intro hcover
    rw [hopen, hcover]

def c9Loop : ReadableSpan := ⟨"loop", some ⟨1, 5⟩, some ⟨1, 5⟩, some 0, none, []⟩

def c9LoopFresh : SpanNode := ⟨c9Loop, ⟨1, 5⟩, none, []⟩

def c9LoopDone : SpanNode := ⟨c9Loop, ⟨1, 5⟩, some 5, [5]⟩

/-- C9 counterexample: a record naming itself as parent builds a tree with
one node (N = 1) whose full rendering contains no opening `<SpanNode` tag
at all — the node, being in a parent cycle, is attached to itself and is
not reachable from any root — refuting the claim that a built tree with N
nodes always renders exactly N opening node tags. -/
theorem C9_counterexample :
    (SpanTree.build [c9Loop]).map (fun t =>
      (t.nodes_by_id.length,
       (t.reprXmlLines true false false false false).countP isOpenNodeLine,
       t.repr_xml true false false false false))
      = some (1, 0, "<SpanTree>\n</SpanTree>") := by
  have hadd : addNodes [] [c9Loop] = some [(5, c9LoopFresh)] := rfl
  have hwf : NodeMapWF [(5, c9LoopFresh)] := ⟨by decide, by decide⟩
  have hsort : sortedNodes [(5, c9LoopFresh)] = [c9LoopFresh] := by
    show ([c9LoopFresh]).mergeSort nodeLE = [c9LoopFresh]
    exact List.mergeSort_singleton _
  have hkeys : sortedKeys [(5, c9LoopFresh)] = [5] := by
    unfold sortedKeys
    rw [hsort]
    rfl
  have hfst := rebuildTree_fst_sorted hwf
  rw [hsort, hkeys] at hfst
  have hfst2 : (rebuildTree [(5, c9LoopFresh)]).1 = [(5, c9LoopDone)] := by
    rw [hfst]
    decide
  have hsnd := rebuildTree_snd [(5, c9LoopFresh)]
  rw [hfst2] at hsnd
  have hsnd2 : (rebuildTree [(5, c9LoopFresh)]).2 = [] := by
    rw [hsnd]
    decide
  have hbuild : SpanTree.build [c9Loop] = some ⟨[(5, c9LoopDone)], []⟩ := by
    rw [build_eq [c9Loop] [(5, c9LoopFresh)] hadd, hfst2, hsnd2]
  rw [hbuild]
  decide

def c9Root : ReadableSpan := ⟨"root", some ⟨1, 1⟩, none, some 0, none, []⟩

def c9Kid : ReadableSpan := ⟨"kid", some ⟨1, 2⟩, some ⟨1, 1⟩, some 5, none, []⟩

/-- The tree the builder produces from `[c9Root, c9Kid]`, written out. -/
def c9Tree : SpanTree :=
  ⟨[(1, ⟨c9Root, ⟨1, 1⟩, none, [2]⟩), (2, ⟨c9Kid, ⟨1, 2⟩, some 1, []⟩)], [1]⟩

/-- Witness for C9 (amended), at a concrete two-node tree whose root
expansion covers all nodes: the opening-tag count equals N. -/
theorem C9_witness :
    (c9Tree.rootNodes.map
        (subtreeCount c9Tree.nodes_by_id (c9Tree.nodes_by_id.length + 1))).sum
      = c9Tree.nodes_by_id.length
    ∧ (c9Tree.reprXmlLines true false false false false).countP isOpenNodeLine
      = c9Tree.nodes_by_id.length :=
  ⟨by decide, (C9_render_tags c9Tree).2.2.2.2 (by decide)⟩

end PydanticEvals
